import Mathlib

/-!
# Verification of the exam-PDF question-extraction pipeline

A shallow embedding, in Lean 4, of the document-reconstruction core of the
repository (modules `ai_preview_importer/pdf_vision_pipeline.py`,
`ai_preview_importer/pdf_extractor_enhanced.py`,
`ai_preview_importer/image_extractor_v2.py`,
`ai_preview_importer/ai_reasoner_v2.py`,
`ai_preview_importer/preview_pipeline_v2.py`), together with theorems
settling the specification's testable properties.

Modelling conventions:
* Python runtime values that flow through the loosely-typed question dicts
  are modelled by the inductive `JVal` (JSON-like values); Python floats are
  modelled as rationals; a question dict is an insertion-ordered association
  list (`PyDict`).
* Exceptions are modelled with `Except`; a Python function that can raise
  returns in the `Except` monad.
* The external reasoning oracle, page renderer, image enhancer and similar
  black-box collaborators are universally-quantified parameters.
* `bytes` values are modelled as `List Nat`; the base64 wrapper around image
  payloads is dropped (it is injective, so content identity is preserved).
-/

set_option maxHeartbeats 1000000
set_option maxRecDepth 10000
set_option linter.unusedVariables false

namespace PdfPipeline

/-- Characters Python's `str.strip` / `\s` treat as whitespace (ASCII range). -/
def pyIsSpace (c : Char) : Bool :=
  c = ' ' || c = '\t' || c = '\n' || c = '\x0d' || c = '\x0b' || c = '\x0c'

/-- Python `str.lstrip()`. -/
def pyLStrip (cs : List Char) : List Char := cs.dropWhile pyIsSpace

/-- Python `str.rstrip()`. -/
def pyRStrip (cs : List Char) : List Char := (cs.reverse.dropWhile pyIsSpace).reverse

/-- Python `str.strip()`. -/
def pyStrip (cs : List Char) : List Char := pyRStrip (pyLStrip cs)

/-- ASCII uppercasing, as Python `str.upper()` on ASCII text. -/
def pyUpperChar (c : Char) : Char :=
  if 'a' ≤ c && c ≤ 'z' then Char.ofNat (c.toNat - 32) else c

/-- ASCII lowercasing, as Python `str.lower()` on ASCII text. -/
def pyLowerChar (c : Char) : Char :=
  if 'A' ≤ c && c ≤ 'Z' then Char.ofNat (c.toNat + 32) else c

def pyUpper (cs : List Char) : List Char := cs.map pyUpperChar

def pyLower (cs : List Char) : List Char := cs.map pyLowerChar

def isDigitChar (c : Char) : Bool := '0' ≤ c && c ≤ '9'

def isAsciiLetter (c : Char) : Bool :=
  ('a' ≤ c && c ≤ 'z') || ('A' ≤ c && c ≤ 'Z')

/-- Case-insensitive character comparison (ASCII), as `re.IGNORECASE`. -/
def ciEq (a b : Char) : Bool := pyLowerChar a = pyLowerChar b

/-- Case-insensitive prefix test for a literal pattern. -/
def ciIsPrefix : List Char → List Char → Bool
  | [], _ => true
  | _ :: _, [] => false
  | p :: ps, c :: cs => ciEq p c && ciIsPrefix ps cs

/-- Python substring containment `needle in haystack`. -/
def pyInStr (needle : List Char) : List Char → Bool
  | [] => needle.isEmpty
  | c :: cs => needle.isPrefixOf (c :: cs) || pyInStr needle cs

/-- Python `str.find(sub)` from the left; `-1` when absent. -/
def pyFindFrom (haystack needle : List Char) (start : Nat) : Int :=
  let rec go : List Char → Nat → Int
    | [], i =>
      -- an empty needle matches at the end of the string
      if needle = [] then Int.ofNat i else -1
    | c :: cs, i =>
      if needle.isPrefixOf (c :: cs) then Int.ofNat i else go cs (i + 1)
  go (haystack.drop start) start

def pyFind (haystack needle : List Char) : Int := pyFindFrom haystack needle 0

/-- Python `str.rfind(sub)`: highest index of an occurrence, `-1` when absent. -/
def pyRFind (haystack needle : List Char) : Int :=
  let rec go : List Char → Nat → Int → Int
    | [], i, best =>
      if needle = [] then Int.ofNat i else best
    | c :: cs, i, best =>
      go cs (i + 1) (if needle.isPrefixOf (c :: cs) then Int.ofNat i else best)
  go haystack 0 (-1)

/-- Python `str.endswith(suffix)`. -/
def pyEndsWith (s suffix : List Char) : Bool :=
  suffix.reverse.isPrefixOf s.reverse

/-- Count occurrences of a character in a list. -/
def countChar (c : Char) (cs : List Char) : Nat := cs.countP (· = c)

/-- Left-brace / right-brace characters (kept out of string literals). -/
def lbrace : Char := Char.ofNat 123

def rbrace : Char := Char.ofNat 125

def lbrack : Char := '['

def rbrack : Char := ']'

def bslash : Char := '\\'

def dquote : Char := '\"'

end PdfPipeline


namespace PdfPipeline

/-- Rational numbers with a positive denominator, used to model Python
floats and geometric coordinates.  Values are not kept in lowest terms;
comparisons go through cross-multiplication, so representation does not
matter to any theorem. -/
structure Frac where
  num : Int
  den : Nat
  dpos : 0 < den
deriving DecidableEq

namespace Frac

def ofInt (n : Int) : Frac := ⟨n, 1, Nat.one_pos⟩

instance (n : Nat) : OfNat Frac n := ⟨ofInt n⟩

def add (a b : Frac) : Frac :=
  ⟨a.num * b.den + b.num * a.den, a.den * b.den, Nat.mul_pos a.dpos b.dpos⟩

def sub (a b : Frac) : Frac :=
  ⟨a.num * b.den - b.num * a.den, a.den * b.den, Nat.mul_pos a.dpos b.dpos⟩

def neg (a : Frac) : Frac := ⟨-a.num, a.den, a.dpos⟩

/-- Division by two (for midpoints). -/
def half (a : Frac) : Frac := ⟨a.num, a.den * 2, Nat.mul_pos a.dpos Nat.two_pos⟩

/-- Scale by `10 ^ e` (for decimal parsing). -/
def mulPow10 (a : Frac) (e : Nat) : Frac :=
  ⟨a.num * (10 : Int) ^ e, a.den, a.dpos⟩

def divPow10 (a : Frac) (e : Nat) : Frac :=
  ⟨a.num, a.den * 10 ^ e, Nat.mul_pos a.dpos (Nat.pos_pow_of_pos e (by decide))⟩

/-- Build `intv + digits / 10 ^ k` directly. -/
def ofDecimal (intv : Int) (fracDigits : Int) (k : Nat) : Frac :=
  ⟨intv * (10 : Int) ^ k + fracDigits, 10 ^ k, Nat.pos_pow_of_pos k (by decide)⟩

def blt (a b : Frac) : Bool := decide (a.num * (b.den : Int) < b.num * (a.den : Int))

def ble (a b : Frac) : Bool := decide (a.num * (b.den : Int) ≤ b.num * (a.den : Int))

def beq (a b : Frac) : Bool := decide (a.num * (b.den : Int) = b.num * (a.den : Int))

def min (a b : Frac) : Frac := if blt a b then a else b

def max (a b : Frac) : Frac := if blt a b then b else a

end Frac

end PdfPipeline

namespace PdfPipeline

/-- Python runtime values flowing through the pipeline's question dicts
(the JSON fragment of Python: `None`, `bool`, `int`, `float` (as `Rat`),
`str`, `list`, `dict`). -/
inductive JVal where
  | null
  | bool (b : Bool)
  | int (n : Int)
  | flt (q : Frac)
  | str (s : String)
  | arr (xs : List JVal)
  | obj (kvs : List (String × JVal))

namespace JVal

/-- Python truthiness. -/
def truthy : JVal → Bool
  | .null => false
  | .bool b => b
  | .int n => n ≠ 0
  | .flt q => q ≠ 0
  | .str s => s ≠ ""
  | .arr xs => !xs.isEmpty
  | .obj kvs => !kvs.isEmpty

/-- The numeric value of a Python number (`bool` is an `int` subclass). -/
def toNum : JVal → Option Frac
  | .bool b => some (if b then Frac.ofInt 1 else Frac.ofInt 0)
  | .int n => some (Frac.ofInt n)
  | .flt q => some q
  | _ => none

/-- Python `==` on the hashable scalars used as dict keys (numeric classes
compare by value across `bool`/`int`/`float`). -/
def scalarEq (a b : JVal) : Bool :=
  match a.toNum, b.toNum with
  | some x, some y => Frac.beq x y
  | _, _ =>
    match a, b with
    | .str s, .str t => s = t
    | .null, .null => true
    | _, _ => false

/-- Is this value usable as a Python dict key (hashable)? -/
def hashable : JVal → Bool
  | .arr _ => false
  | .obj _ => false
  | _ => true

end JVal

end PdfPipeline

namespace PdfPipeline

/-- A Python dict with string keys: insertion-ordered association list with
unique keys (updates keep the original position, as CPython does). -/
abbrev PyDict := List (String × JVal)

/-- First (and, by construction, only) binding of a key. -/
def dFind? (d : PyDict) (k : String) : Option JVal :=
  match d with
  | [] => none
  | (k', v) :: rest => if k' = k then some v else dFind? rest k

/-- Python `dict.get(k)` (default `None`). -/
def dGet (d : PyDict) (k : String) : JVal := (dFind? d k).getD .null

/-- Python `dict.get(k, default)`. -/
def dGetD (d : PyDict) (k : String) (v : JVal) : JVal := (dFind? d k).getD v

/-- Python `k in d`. -/
def dHasKey (d : PyDict) (k : String) : Bool := (dFind? d k).isSome

/-- Python `d[k] = v`: update in place when present, else append. -/
def dSet (d : PyDict) (k : String) (v : JVal) : PyDict :=
  match d with
  | [] => [(k, v)]
  | (k', v') :: rest =>
    if k' = k then (k', v) :: rest else (k', v') :: dSet rest k v

/-- Lexicographic code-point comparison, Python `str < str`. -/
def strLtChars : List Char → List Char → Bool
  | [], [] => false
  | [], _ :: _ => true
  | _ :: _, [] => false
  | a :: as, b :: bs =>
    if a.toNat < b.toNat then true
    else if b.toNat < a.toNat then false
    else strLtChars as bs

/-- Python `<` between values used as sort keys.  Numbers (including `bool`)
compare by value, strings lexicographically; any other combination raises
`TypeError`, modelled as `.error ()`. -/
def pyLt (a b : JVal) : Except Unit Bool :=
  match a.toNum, b.toNum with
  | some x, some y => .ok (Frac.blt x y)
  | _, _ =>
    match a, b with
    | .str s, .str t => .ok (strLtChars s.data t.data)
    | _, _ => .error ()

/-- Parse a stripped decimal string as Python `int(...)` does (sign and
digits; underscore separators and non-ASCII digits are not modelled). -/
def parsePyInt (cs : List Char) : Option Int :=
  let digits (ds : List Char) : Option Int :=
    if ds.isEmpty || !ds.all isDigitChar then none
    else some (ds.foldl (fun acc c => acc * 10 + (c.toNat - '0'.toNat : Int)) 0)
  match cs with
  | '+' :: rest => digits rest
  | '-' :: rest => (digits rest).map (fun n => -n)
  | _ => digits cs

/-- `normalize_question_id` (pdf_vision_pipeline.py:459-481).  Strings are
stripped, a leading `Q`/`No`/`#` prefix is removed (the regex alternation
`Q|Question|No|#` commits to `Q` before trying `Question`, so a `Question`
prefix is only shortened by its initial letter and the subsequent
`int(...)` fails), one trailing punctuation mark is removed, and the result
is parsed as an integer; on failure the ORIGINAL value is returned.
Non-`int`, non-`str` inputs pass through unchanged. -/
def normalizeQuestionId (q : JVal) : JVal :=
  match q with
  | .str s =>
    let cleaned := pyStrip s.data
    let cleaned :=
      if ciIsPrefix ['Q'] cleaned then pyLStrip (cleaned.drop 1)
      else if ciIsPrefix ['N', 'o'] cleaned then pyLStrip (cleaned.drop 2)
      else if ciIsPrefix ['#'] cleaned then pyLStrip (cleaned.drop 1)
      else cleaned
    let r := pyRStrip cleaned
    let cleaned :=
      match r.getLast? with
      | some c =>
        if c = '.' || c = ':' || c = ')' || c = rbrack then r.dropLast else cleaned
      | none => cleaned
    let cleaned := pyStrip cleaned
    match parsePyInt cleaned with
    | some n => .int n
    | none => .str s
  | other => other

/-- `is_pdf` (pdf_vision_pipeline.py:448-450): magic-number check for
`b'%PDF'`. -/
def is_pdf (fileBytes : List Nat) : Bool :=
  [37, 80, 68, 70].isPrefixOf fileBytes

/-- `is_image` (pdf_vision_pipeline.py:453-456).  The generator variable
`ext` shadows the lowercased filename, so every extension is tested as a
suffix of itself and the function is constantly `True`. -/
def is_image (filename : String) : Bool :=
  let ext := pyLower filename.data
  [".png", ".jpg", ".jpeg", ".webp", ".gif", ".bmp"].any
    (fun ext => pyEndsWith ext.data ext.data)

end PdfPipeline

namespace PdfPipeline

/-- An axis-aligned bounding box `(x0, y0, x1, y1)`; y grows downwards. -/
structure Rect where
  x0 : Frac
  y0 : Frac
  x1 : Frac
  y1 : Frac
deriving DecidableEq

/-- A positioned text line as produced by the extractors
(pdf_extractor_v2.py / pdf_extractor_enhanced.py). -/
structure Line where
  page_num : Int
  bbox : Rect
  text : String
  source : String
deriving DecidableEq

/-- A visual element as produced by `extract_all_visual_elements`
(image_extractor_v2.py).  `content` holds the original embedded bytes;
`b64` is the (injectively modelled) `base64` payload string. -/
structure VImg where
  id : String
  page_num : Int
  bbox : Rect
  content : List Nat
  b64 : String
  width : Int
  height : Int
  fmt : String
  itype : String
  source : String
deriving DecidableEq

/-- Injective stand-in for the `data:image/...;base64,...` encoding of a
byte payload. -/
def bytesToStr (bs : List Nat) : String :=
  ⟨bs.map (fun b => Char.ofNat (b % 256))⟩

/-- Does the next character exist and count as `\s`? -/
def needSpace : List Char → Bool
  | c :: _ => pyIsSpace c
  | [] => false

/-- `\d+` followed by one `\s`, at the head of the input. -/
def digitsThenSpace (cs : List Char) : Bool :=
  let p := cs.span isDigitChar
  !p.1.isEmpty && needSpace p.2

/-- `re.match(r'^\s*(?:\d+\.|Q\.?\s*\d+|Question\s*\d+)\s', text, IGNORECASE)`
(pdf_extractor_enhanced.py:299).  Each alternative is deterministic because
the character classes involved are disjoint. -/
def anchorMatch (s : String) : Bool :=
  let cs := pyLStrip s.data
  let alt1 :=
    match cs.span isDigitChar with
    | (ds, '.' :: rest) => !ds.isEmpty && needSpace rest
    | _ => false
  let alt2 :=
    match cs with
    | c :: rest =>
      ciEq 'Q' c &&
        (let rest := match rest with
          | '.' :: r => r
          | r => r
         digitsThenSpace (pyLStrip rest))
    | [] => false
  let alt3 :=
    ciIsPrefix "Question".data cs && digitsThenSpace (pyLStrip (cs.drop 8))
  alt1 || alt2 || alt3

/-- `re.match(r'^\s*(?:Page\s*\d+|\d+\s*$|Copyright|Institute)', text,
IGNORECASE)` (pdf_extractor_enhanced.py:300). -/
def ignoreMatch (s : String) : Bool :=
  let cs := pyLStrip s.data
  let alt1 :=
    ciIsPrefix "Page".data cs &&
      !((pyLStrip (cs.drop 4)).span isDigitChar).1.isEmpty
  let alt2 :=
    let p := cs.span isDigitChar
    !p.1.isEmpty && (pyLStrip p.2).isEmpty
  alt1 || alt2 || ciIsPrefix "Copyright".data cs || ciIsPrefix "Institute".data cs

/-- Is the character in `[A-D]` up to case? -/
def isOptionLetter (c : Char) : Bool :=
  let u := pyUpperChar c
  'A' ≤ u && u ≤ 'D'

/-- `re.match(r'^\s*(?:[A-D]\.|[A-D]\)|\([A-D]\))\s', text, IGNORECASE)`
(pdf_extractor_enhanced.py:403), returning the uppercased option letter
that `re.search(r'[A-D]', match.group(0).strip().upper())` would extract. -/
def optionMatch (s : String) : Option Char :=
  let cs := pyLStrip s.data
  match cs with
  | c1 :: c2 :: rest =>
    if isOptionLetter c1 && (c2 = '.' || c2 = ')') && needSpace rest then
      some (pyUpperChar c1)
    else
      match cs with
      | '(' :: l :: ')' :: rest2 =>
        if isOptionLetter l && needSpace rest2 then some (pyUpperChar l) else none
      | _ => none
  | _ => none

/-- A question unit built by `detect_question_anchors`
(pdf_extractor_enhanced.py:294-329). -/
structure DQ where
  question_index : Nat
  lines : List Line
  question_bbox : Rect
  image_id : Option String := none
deriving DecidableEq

/-- `_calculate_union_bbox` (pdf_extractor_enhanced.py:332-342). -/
def calculateUnionBbox (lines : List Line) : Rect :=
  match lines with
  | [] => ⟨0, 0, 0, 0⟩
  | l :: ls =>
    ls.foldl
      (fun r l' =>
        ⟨Frac.min r.x0 l'.bbox.x0, Frac.min r.y0 l'.bbox.y0,
         Frac.max r.x1 l'.bbox.x1, Frac.max r.y1 l'.bbox.y1⟩)
      l.bbox

/-- Close the active question: recompute its union bbox and append it. -/
def closeQuestion (questions : List DQ) : Option DQ → List DQ
  | none => questions
  | some cq => questions ++ [{cq with question_bbox := calculateUnionBbox cq.lines}]

/-- `detect_question_anchors` (pdf_extractor_enhanced.py:294-329): group the
line sequence into question units at anchor lines, discarding noise lines. -/
def detectQuestionAnchorsGo (questions : List DQ) (current : Option DQ) :
    List Line → List DQ
  | [] => closeQuestion questions current
  | line :: rest =>
    if ignoreMatch line.text then
      detectQuestionAnchorsGo questions current rest
    else if anchorMatch line.text then
      let questions := closeQuestion questions current
      detectQuestionAnchorsGo questions
        (some ⟨questions.length + 1, [line], line.bbox, none⟩) rest
    else
      match current with
      | some cq =>
        detectQuestionAnchorsGo questions (some {cq with lines := cq.lines ++ [line]}) rest
      | none => detectQuestionAnchorsGo questions none rest

def detectQuestionAnchors (lines : List Line) : List DQ :=
  detectQuestionAnchorsGo [] none lines

end PdfPipeline

namespace PdfPipeline

/-- Vertical containment of the image centre in a unit's union bbox
(`q_bbox[1] <= img_y_center <= q_bbox[3]`). -/
def vertContains (q : DQ) (cy : Frac) : Bool :=
  Frac.ble q.question_bbox.y0 cy && Frac.ble cy q.question_bbox.y1

/-- `q_bbox[3] <= img_bbox[1]`: the unit's bottom edge lies at or above the
image's top edge. -/
def isAbove (q : DQ) (imgBbox : Rect) : Bool :=
  Frac.ble q.question_bbox.y1 imgBbox.y0

/-- The vertical gap `img_bbox[1] - q_bbox[3]`. -/
def gapOf (q : DQ) (imgBbox : Rect) : Frac :=
  Frac.sub imgBbox.y0 q.question_bbox.y1

/-- The image's vertical centre `(img_bbox[1] + img_bbox[3]) / 2`. -/
def imgCenterY (imgBbox : Rect) : Frac :=
  Frac.half (Frac.add imgBbox.y0 imgBbox.y1)

/-- The body of the nearest-above scan (pdf_extractor_enhanced.py:388-394):
a unit whose bottom edge lies at or above the image's top edge replaces the
running best only when its gap is strictly smaller. -/
def aboveStep (imgBbox : Rect) (acc : Option (Nat × Frac)) (p : Nat × DQ) :
    Option (Nat × Frac) :=
  if isAbove p.2 imgBbox then
    let dist := gapOf p.2 imgBbox
    match acc with
    | none => some (p.1, dist)
    | some (_, m) => if Frac.blt dist m then some (p.1, dist) else acc
  else acc

/-- The per-image binding choice inside `attach_images_to_questions`
(pdf_extractor_enhanced.py:368-394): first scan for a unit whose union bbox
vertically contains the image centre (break on the first hit); otherwise
take the unit whose bottom edge lies at or above the image's top edge with
the strictly smallest gap (first minimum wins).  Questions are given
together with their indices into the full question list. -/
def selectTargetIdx (pageQs : List (Nat × DQ)) (imgBbox : Rect) : Option Nat :=
  let cy := imgCenterY imgBbox
  match pageQs.find? (fun p => vertContains p.2 cy) with
  | some p => some p.1
  | none => (pageQs.foldl (aboveStep imgBbox) none).map Prod.fst

/-- First-occurrence order of the keys of a Python dict built by grouping. -/
def firstOccurrences (keys : List Int) : List Int :=
  keys.foldl (fun acc k => if k ∈ acc then acc else acc ++ [k]) []

/-- `attach_images_to_questions` (pdf_extractor_enhanced.py:345-397).
Groups images and questions by page; pages whose image group has no
question are skipped entirely (their images are not even given ids).
Within a page, every image receives the id `IMG_<i>` and, when a target
question is found, that question's `image_id` is overwritten (last write
wins).  Returns the updated questions together with the mutated images. -/
def attachImagesToQuestions (questions : List DQ) (images : List VImg) :
    List DQ × List VImg :=
  let pages := firstOccurrences (images.map (fun i => i.page_num))
  pages.foldl
    (fun (st : List DQ × List VImg) page =>
      let (qs, imgs) := st
      -- indices of this page's images, in list order
      let imgIdxs := (imgs.enum.filter (fun p => p.2.page_num = page)).map Prod.fst
      -- indices of this page's questions (first line's page), in list order
      let qIdxs := (qs.enum.filter
        (fun p => match p.2.lines.head? with
          | some l => l.page_num = page
          | none => false)).map Prod.fst
      if qIdxs.isEmpty then st
      else
        (imgIdxs.enum.foldl
          (fun (st2 : List DQ × List VImg) (ii : Nat × Nat) =>
            let (qs2, imgs2) := st2
            let (i, imgIdx) := ii
            let imgId := "IMG_" ++ toString i
            match imgs2.get? imgIdx with
            | none => st2
            | some img =>
              let imgs3 := imgs2.set imgIdx {img with id := imgId}
              let pageQs := qIdxs.filterMap (fun j => (qs2.get? j).map (fun q => (j, q)))
              match selectTargetIdx pageQs img.bbox with
              | some best =>
                match qs2.get? best with
                | some bq => (qs2.set best {bq with image_id := some imgId}, imgs3)
                | none => (qs2, imgs3)
              | none => (qs2, imgs3))
          (qs, imgs)))
    (questions, images)

/-- The AI-ready question structure built by `format_questions_for_ai`
(pdf_extractor_enhanced.py:400-440). -/
structure FQ where
  id : Nat
  raw_question_lines : List String
  options : PyDict
  image_id : Option String
  needsAnswer : Bool

/-- `format_questions_for_ai` (pdf_extractor_enhanced.py:400-440): split a
question's lines into option slots `A`-`D` and free question text.  An
option line overwrites its slot; continuation lines are appended with a
single space (or start the slot when it is still empty). -/
def formatQuestionsForAI (questions : List DQ) : List FQ :=
  questions.map fun q =>
    let st := q.lines.foldl
      (fun (st : List String × PyDict × Option Char) line =>
        let (raw, options, currentOpt) := st
        match optionMatch line.text with
        | some letter =>
          (raw, dSet options (String.singleton letter) (.str line.text), some letter)
        | none =>
          match currentOpt with
          | some l =>
            let key := String.singleton l
            let newVal :=
              match dGet options key with
              | .str prev =>
                if prev = "" then JVal.str line.text
                else JVal.str (prev ++ " " ++ line.text)
              | _ => JVal.str line.text
            (raw, dSet options key newVal, currentOpt)
          | none => (raw ++ [line.text], options, currentOpt))
      ([], [("A", .null), ("B", .null), ("C", .null), ("D", .null)], none)
    { id := q.question_index
      raw_question_lines := st.1
      options := st.2.1
      image_id := q.image_id
      needsAnswer := true }

/-- `fallback_to_deterministic` (ai_reasoner_v2.py:212-260): regex-based
question detection, image attachment and reshaping into the common
question-dict form.  The whole body is wrapped in `try/except`; the pure
model cannot raise, so the exception branch is unreachable.  Returns the
questions together with the images mutated by the attach step. -/
def fallbackToDeterministic (textBlocks : List Line) (images : List VImg)
    (pageNum : Int) : List PyDict × List VImg :=
  let candidates := detectQuestionAnchors textBlocks
  let (attached, images') := attachImagesToQuestions candidates images
  let formatted := formatQuestionsForAI attached
  (formatted.map fun fq =>
    [("questionText", JVal.str (String.intercalate " " fq.raw_question_lines)),
     ("options", JVal.obj fq.options),
     ("image", match fq.image_id with
       | some i => JVal.str i
       | none => JVal.null),
     ("optionImages", JVal.obj []),
     ("correctAnswer", JVal.null),
     ("needsAnswer", JVal.bool true),
     ("type", JVal.str "single"),
     ("metadata", JVal.obj [("page", JVal.int pageNum), ("source", JVal.str "fallback")])],
   images')

end PdfPipeline

namespace PdfPipeline

/-- JSON whitespace (`json.loads` skips exactly space, tab, LF, CR). -/
def jsonWs (c : Char) : Bool :=
  c = ' ' || c = '\t' || c = '\n' || c = '\x0d'

def skipWs (cs : List Char) : List Char := cs.dropWhile jsonWs

def hexVal (c : Char) : Option Nat :=
  let n := c.toNat
  if 48 ≤ n && n ≤ 57 then some (n - 48)
  else if 97 ≤ n && n ≤ 102 then some (n - 87)
  else if 65 ≤ n && n ≤ 70 then some (n - 55)
  else none

def digitsVal (ds : List Char) : Int :=
  ds.foldl (fun acc c => acc * 10 + (c.toNat - '0'.toNat : Int)) 0

/-- Decode a single-character JSON escape. -/
def escChar (e : Char) : Option Char :=
  if e = dquote then some dquote
  else if e = bslash then some bslash
  else if e = '/' then some '/'
  else if e = 'b' then some '\x08'
  else if e = 'f' then some '\x0c'
  else if e = 'n' then some '\n'
  else if e = 'r' then some '\x0d'
  else if e = 't' then some '\t'
  else none

/-- Decode a `\uXXXX` escape from four hex digits. -/
def hex4 (h1 h2 h3 h4 : Char) : Option Char :=
  match hexVal h1, hexVal h2, hexVal h3, hexVal h4 with
  | some a, some b, some c, some d =>
    some (Char.ofNat (((a * 16 + b) * 16 + c) * 16 + d))
  | _, _, _, _ => none

/-- Parse a JSON string body (the opening quote already consumed). -/
def parseJString : List Char → List Char → Option (String × List Char)
  | [], _ => none
  | ch :: tl, out =>
    if ch = dquote then some (⟨out.reverse⟩, tl)
    else if ch = bslash then
      match tl with
      | 'u' :: h1 :: h2 :: h3 :: h4 :: tl2 =>
        match hex4 h1 h2 h3 h4 with
        | some u => parseJString tl2 (u :: out)
        | none => none
      | e :: tl2 =>
        match escChar e with
        | some d => parseJString tl2 (d :: out)
        | none => none
      | [] => none
    else if ch.toNat < 32 then none
    else parseJString tl (ch :: out)

/-- The optional fraction part of a JSON number (empty digits after a dot
are a syntax error; no dot yields an empty fraction). -/
def jNumFrac (cs : List Char) : Option (List Char × List Char) :=
  match cs with
  | dot :: r =>
    if dot = '.' then
      match r.span isDigitChar with
      | ([], _) => none
      | (fs, r2) => some (fs, r2)
    else some ([], cs)
  | [] => some ([], cs)

/-- The optional exponent part of a JSON number. -/
def jNumExp (cs : List Char) : Option (Option Int × List Char) :=
  match cs with
  | mark :: r =>
    if mark = 'e' || mark = 'E' then
      let (eneg, r1) :=
        match r with
        | '+' :: rr => (false, rr)
        | '-' :: rr => (true, rr)
        | _ => (false, r)
      match r1.span isDigitChar with
      | ([], _) => none
      | (es, r2) =>
        some (some (if eneg then -(digitsVal es) else digitsVal es), r2)
    else some (none, cs)
  | [] => some (none, cs)

/-- Parse a JSON number at the head of the input (strict grammar, as
`json.loads`); integers without fraction/exponent become Python `int`s. -/
def parseJNumber (cs : List Char) : Option (JVal × List Char) :=
  let (neg, body) :=
    match cs with
    | '-' :: r => (true, r)
    | _ => (false, cs)
  match body.span isDigitChar with
  | ([], _) => none
  | (ds, afterInt) =>
    if ds.head? = some '0' && ds.length > 1 then none
    else
      let intv : Int := digitsVal ds
      match jNumFrac afterInt with
      | none => none
      | some (fs, afterFrac) =>
        match jNumExp afterFrac with
        | none => none
        | some (expv, tail) =>
          if fs.isEmpty && expv.isNone then
            some (.int (if neg then -intv else intv), tail)
          else
            let mant : Frac := Frac.ofDecimal intv (digitsVal fs) fs.length
            let e := expv.getD 0
            let mag :=
              if 0 ≤ e then Frac.mulPow10 mant e.toNat
              else Frac.divPow10 mant (-e).toNat
            some (.flt (if neg then Frac.neg mag else mag), tail)

mutual

/-- Recursive-descent JSON value parser with explicit fuel; `jsonLoads`
supplies fuel larger than any parse can need, so exhaustion only occurs on
inputs that fail anyway. -/
def parseJVal : Nat → List Char → Option (JVal × List Char)
  | 0, _ => none
  | fuel + 1, input =>
    match skipWs input with
    | [] => none
    | ch :: tl =>
      if ch = dquote then
        match parseJString tl [] with
        | some (s, tl2) => some (.str s, tl2)
        | none => none
      else if ch = lbrack then
        match skipWs tl with
        | c2 :: tl2 =>
          if c2 = rbrack then some (.arr [], tl2)
          else parseJArr fuel (skipWs tl) []
        | [] => none
      else if ch = lbrace then
        match skipWs tl with
        | c2 :: tl2 =>
          if c2 = rbrace then some (.obj [], tl2)
          else parseJObj fuel (skipWs tl) []
        | [] => none
      else if "true".data.isPrefixOf (ch :: tl) then
        some (.bool true, (ch :: tl).drop 4)
      else if "false".data.isPrefixOf (ch :: tl) then
        some (.bool false, (ch :: tl).drop 5)
      else if "null".data.isPrefixOf (ch :: tl) then
        some (.null, (ch :: tl).drop 4)
      else parseJNumber (ch :: tl)

/-- Parse the remaining elements of a non-empty JSON array. -/
def parseJArr : Nat → List Char → List JVal → Option (JVal × List Char)
  | 0, _, _ => none
  | fuel + 1, input, acc =>
    match parseJVal fuel input with
    | none => none
    | some (v, tl) =>
      match skipWs tl with
      | [] => none
      | sep :: tl2 =>
        if sep = ',' then parseJArr fuel tl2 (v :: acc)
        else if sep = rbrack then some (.arr (v :: acc).reverse, tl2)
        else none

/-- Parse the remaining members of a non-empty JSON object; duplicate keys
overwrite in place, as when Python builds the dict. -/
def parseJObj : Nat → List Char → List (String × JVal) →
    Option (JVal × List Char)
  | 0, _, _ => none
  | fuel + 1, input, acc =>
    match skipWs input with
    | [] => none
    | ch :: tl =>
      if ch = dquote then
        match parseJString tl [] with
        | none => none
        | some (k, tl2) =>
          match skipWs tl2 with
          | colon :: tl3 =>
            if colon = ':' then
              match parseJVal fuel tl3 with
              | none => none
              | some (v, tl4) =>
                match skipWs tl4 with
                | [] => none
                | sep :: tl5 =>
                  if sep = ',' then parseJObj fuel tl5 (dSet acc k v)
                  else if sep = rbrace then some (.obj (dSet acc k v), tl5)
                  else none
            else none
          | [] => none
      else none

end

/-- `json.loads`: parse a complete JSON document (trailing whitespace only). -/
def jsonLoads (s : String) : Option JVal :=
  match parseJVal (2 * s.data.length + 4) s.data with
  | some (v, rest) => if (skipWs rest).isEmpty then some v else none
  | none => none

end PdfPipeline

namespace PdfPipeline

/-- One scan step of `re.sub(r':\s*(IMG_\d+)\s*([,}\]])', r': "\1"\2', text)`:
try to match at the position just after a `:`. -/
def tryFix1 (cs : List Char) : Option (List Char × Char × List Char) :=
  let cs1 := cs.dropWhile pyIsSpace
  if "IMG_".data.isPrefixOf cs1 then
    match (cs1.drop 4).span isDigitChar with
    | ([], _) => none
    | (ds, r) =>
      match r.dropWhile pyIsSpace with
      | d :: rest =>
        if d = ',' || d = rbrace || d = rbrack then
          some ("IMG_".data ++ ds, d, rest)
        else none
      | [] => none
  else none

/-- Fix 1 of `_sanitize_gemini_json` (pdf_vision_pipeline.py:892): quote
bare `IMG_<n>` references.  Fuel is the input length; every step consumes
at least one character, so the fuel never runs out. -/
def fix1 : Nat → List Char → List Char
  | 0, cs => cs
  | _ + 1, [] => []
  | fuel + 1, c :: cs =>
    if c = ':' then
      match tryFix1 cs with
      | some (tok, d, rest) =>
        ':' :: ' ' :: dquote :: (tok ++ (dquote :: d :: fix1 fuel rest))
      | none => c :: fix1 fuel cs
    else c :: fix1 fuel cs

/-- Fix 2 of `_sanitize_gemini_json` (pdf_vision_pipeline.py:897-906):
`re.sub(r'(?<!\\)\\([a-zA-Z]+)', fix_backslash, text)`.  The `prev`
argument tracks the previous character of the ORIGINAL text for the
look-behind. -/
def fix2 : Nat → Option Char → List Char → List Char
  | 0, _, cs => cs
  | _ + 1, _, [] => []
  | fuel + 1, prev, c :: cs =>
    if c = bslash && prev ≠ some bslash then
      match cs.span isAsciiLetter with
      | ([], _) => c :: fix2 fuel (some c) cs
      | (word, rest) =>
        let repl :=
          if word.length ≥ 2 then bslash :: bslash :: word
          else if word = ['b'] || word = ['f'] || word = ['n'] || word = ['r'] ||
              word = ['t'] || word = ['u'] then bslash :: word
          else bslash :: bslash :: word
        repl ++ fix2 fuel (word.getLast?) rest
    else c :: fix2 fuel (some c) cs

/-- Python `str.replace(pat, rep)` for a non-empty pattern. -/
def replaceAll (pat rep : List Char) : Nat → List Char → List Char
  | 0, cs => cs
  | _ + 1, [] => []
  | fuel + 1, c :: cs =>
    if pat.isPrefixOf (c :: cs) then rep ++ replaceAll pat rep fuel ((c :: cs).drop pat.length)
    else c :: replaceAll pat rep fuel cs

/-- `_repair_truncated_json` (pdf_vision_pipeline.py:921-962).  Looks for
the last `"negativeMarks"` / `"marks"` / `"correctAnswer"` key, then for a
`}` after it; when that `}` exists the text is cut there and the array and
object are closed.  When the key exists but no `}` follows, NOTHING is done
and the text is returned untouched (the `if close_pos > 0` guard has no
else-branch).  Only when no key is found at all does the brace-counting
brute-force path run. -/
def repairTruncatedJson (cs : List Char) : List Char :=
  let needle1 := dquote :: ("negativeMarks".data ++ [dquote])
  let needle2 := dquote :: ("marks".data ++ [dquote])
  let needle3 := dquote :: ("correctAnswer".data ++ [dquote])
  let lc := pyRFind cs needle1
  let lc := if lc = -1 then pyRFind cs needle2 else lc
  let lc := if lc = -1 then pyRFind cs needle3 else lc
  if lc > 0 then
    let closePos := pyFindFrom cs [rbrace] lc.toNat
    if closePos > 0 then
      cs.take (closePos.toNat + 1) ++ ('\n' :: ' ' :: ' ' :: rbrack :: '\n' :: [rbrace])
    else cs
  else
    let openBraces : Int := (countChar lbrace cs : Int) - (countChar rbrace cs : Int)
    let openBrackets : Int := (countChar lbrack cs : Int) - (countChar rbrack cs : Int)
    let lastQuote := pyRFind cs [dquote]
    let cs2 :=
      if lastQuote > 0 then
        let preceding := cs.take lastQuote.toNat
        if countChar dquote preceding % 2 = 0 then
          preceding ++ (dquote :: ("null".data ++ [dquote]))
        else cs
      else cs
    cs2 ++ List.replicate (max 0 openBrackets).toNat rbrack ++
      List.replicate (max 0 openBraces).toNat rbrace

/-- `_sanitize_gemini_json` (pdf_vision_pipeline.py:884-918). -/
def sanitizeGeminiJson (cs : List Char) : List Char :=
  let t := fix1 cs.length cs
  let t := fix2 t.length none t
  let t := replaceAll [bslash, '('] ['('] t.length t
  let t := replaceAll [bslash, ')'] [')'] t.length t
  let t := pyRStrip t
  if t.getLast? = some rbrace then t else repairTruncatedJson t

/-- Strip optional markdown code fences, as done both in `_parse_response`
(pdf_vision_pipeline.py:968-975) and `_parse_gemini_response`
(ai_reasoner_v2.py:151-158). -/
def stripFences (cs : List Char) : List Char :=
  let c1 := pyStrip cs
  let c2 :=
    if "```json".data.isPrefixOf c1 then c1.drop 7
    else if "```".data.isPrefixOf c1 then c1.drop 3
    else c1
  let c3 := if pyEndsWith c2 "```".data then c2.take (c2.length - 3) else c2
  pyStrip c3

/-- An embedded image record as produced by `extract_embedded_images`
(pdf_vision_pipeline.py:373-429).  `data` stands for the image bytes (the
real dict stores their base64 encoding, an injective wrapper). -/
structure EmbImg where
  page : Int
  data : List Nat
  ext : String
  width : Int
  height : Int
  bbox : Option Rect
  base64_uri : String
deriving DecidableEq

/-- Exceptions `_parse_response` can raise. -/
inductive ParseErr where
  | invalidJson
  | zeroQuestions
  | runtime
deriving DecidableEq, Repr

/-- The result dict of `_parse_response`. -/
structure ParsedOut where
  title : JVal
  description : JVal
  questions : List PyDict
  canConfirm : Bool
  unansweredCount : Nat
  revision_notes : Option JVal

def isNullJ : JVal → Bool
  | .null => true
  | _ => false

/-- Python `==` between a JSON value and an `int` dict key. -/
def pageKeyEq (j : JVal) (p : Int) : Bool :=
  match j.toNum with
  | some f => Frac.beq f (Frac.ofInt p)
  | none => false

/-- Python `for` over an arbitrary value (`TypeError` on non-iterables). -/
def pyIter : JVal → Except ParseErr (List JVal)
  | .arr l => .ok l
  | .str s => .ok (s.data.map (fun c => JVal.str (String.singleton c)))
  | .obj kvs => .ok (kvs.map (fun kv => JVal.str kv.1))
  | _ => .error .runtime

/-- Validate one question dict from the oracle response and match its
diagram (body of the loop at pdf_vision_pipeline.py:1005-1059). -/
def validateQuestion (embedded : List EmbImg) (i : Nat) (q : JVal) :
    Except ParseErr (Option PyDict) := do
  match q with
  | .obj qd =>
    let questionText :=
      let a := dGet qd "question"
      if a.truthy then a
      else
        let b := dGet qd "questionText"
        if b.truthy then b else JVal.str ""
    if !questionText.truthy then
      return none
    else
      let qImage := dGet qd "image"
      let diagramPage := dGet qd "diagramPage"
      let diagramOption := dGet qd "diagramOption"
      let keepAsIs :=
        match qImage with
        | .str s =>
          qImage.truthy &&
            ("data:".data.isPrefixOf s.data || "http".data.isPrefixOf s.data)
        | _ => false
      let qImage' ←
        if keepAsIs then pure qImage
        else
          if diagramPage.truthy then
            if !diagramPage.hashable then
              throw .runtime
            else
              if embedded.any (fun im => pageKeyEq diagramPage im.page) then
                let pageImgs := embedded.filter (fun im => pageKeyEq diagramPage im.page)
                match pageImgs with
                | [] => pure JVal.null
                | im0 :: rest =>
                  if diagramOption.truthy then
                    pure (JVal.str im0.base64_uri)
                  else
                    let best := rest.foldl
                      (fun b im => if im.width * im.height > b.width * b.height then im else b)
                      im0
                    pure (JVal.str best.base64_uri)
              else pure JVal.null
          else pure JVal.null
      let options := dGetD qd "options" (.obj [])
      let qType := dGetD qd "type" (.str "single")
      let typeIsNumerical :=
        match qType with
        | .str t => t = "numerical"
        | _ => false
      let options :=
        if !options.truthy && !typeIsNumerical then
          JVal.obj [("A", .str ""), ("B", .str ""), ("C", .str ""), ("D", .str "")]
        else options
      let optionImages ←
        if options.truthy then
          match options with
          | .obj kvs => pure (JVal.obj (kvs.map (fun kv => (kv.1, JVal.null))))
          | _ => throw .runtime
        else pure (JVal.obj [])
      return some
        [("id", dGetD qd "id" (.int (Int.ofNat i + 1))),
         ("type", qType),
         ("question", questionText),
         ("image", qImage'),
         ("options", options),
         ("optionImages", optionImages),
         ("correctAnswer", dGet qd "correctAnswer"),
         ("marks", dGetD qd "marks" (.int 4)),
         ("negativeMarks", dGetD qd "negativeMarks" (.int 1)),
         ("crossPage", dGetD qd "crossPage" (.bool false))]
  | _ => return none

def validateQuestions (embedded : List EmbImg) : Nat → List JVal →
    Except ParseErr (List PyDict)
  | _, [] => .ok []
  | i, q :: rest => do
    let v ← validateQuestion embedded i q
    let vs ← validateQuestions embedded (i + 1) rest
    match v with
    | some d => .ok (d :: vs)
    | none => .ok vs

/-- `_parse_response` (pdf_vision_pipeline.py:965-1073): strip fences, parse
(with one sanitization retry), require a non-empty `questions` value, then
validate each question and attach diagram payloads. -/
def parseResponse (rawText : String) (embedded : List EmbImg) :
    Except ParseErr ParsedOut := do
  let clean := stripFences rawText.data
  let data ←
    match jsonLoads ⟨clean⟩ with
    | some d => pure d
    | none =>
      match jsonLoads ⟨sanitizeGeminiJson clean⟩ with
      | some d => pure d
      | none => throw .invalidJson
  match data with
  | .obj dd =>
    let questions := dGetD dd "questions" (.arr [])
    if !questions.truthy then
      throw .zeroQuestions
    else
      let qlist ← pyIter questions
      let validated ← validateQuestions embedded 0 qlist
      let canConfirm := validated.all (fun q => !isNullJ (dGet q "correctAnswer"))
      let unanswered := validated.countP (fun q => isNullJ (dGet q "correctAnswer"))
      let revNotes := dGet dd "revision_notes"
      return { title := dGetD dd "title" (.str "")
               description := dGetD dd "description" (.str "")
               questions := validated
               canConfirm := canConfirm
               unansweredCount := unanswered
               revision_notes := if revNotes.truthy then some revNotes else none }
  | _ => throw .runtime

end PdfPipeline

namespace PdfPipeline

/-- `!= "single"` between an arbitrary value and the string `"single"`
(different types are simply unequal in Python, no exception). -/
def jvalNeStr (v : JVal) (s : String) : Bool :=
  match v with
  | .str t => t ≠ s
  | _ => true

/-- Deduplicate collected question texts by mutual substring containment
(pdf_vision_pipeline.py:634-646). -/
def textsDedup (texts : List String) : List String :=
  texts.foldl
    (fun uniq t =>
      if uniq.any (fun s => pyInStr t.data s.data || pyInStr s.data t.data) then uniq
      else uniq ++ [t])
    []

/-- Python `min` over a non-empty list of values, via `<` (raises on
incomparable values). -/
def pyMinJ (x : JVal) (xs : List JVal) : Except Unit JVal :=
  xs.foldlM
    (fun m y => do
      let b ← pyLt y m
      pure (if b then y else m))
    x

/-- Loop state of `merge_question_parts`: collected texts, collected
options, collected diagram pages, and the merged dict so far. -/
abbrev MergeSt := List String × PyDict × List JVal × PyDict

/-- One option slot collection step (`for key, value in opts.items()` at
pdf_vision_pipeline.py:618-620): a truthy, non-blank string value
OVERWRITES the slot; a truthy non-string raises at `.strip()`. -/
def collectOption (acc : PyDict) (kv : String × JVal) : Except Unit PyDict :=
  if kv.2.truthy then
    match kv.2 with
    | .str vs =>
      pure (if (pyStrip vs.data).isEmpty then acc else dSet acc kv.1 kv.2)
    | _ => throw ()
  else pure acc

/-- Question-text collection of one loop iteration
(pdf_vision_pipeline.py:611-613): a truthy string with non-blank strip is
appended (stripped); a truthy non-string raises at `.strip()`. -/
def collectText (texts : List String) (part : PyDict) :
    Except Unit (List String) :=
  let qText := dGetD part "question" (.str "")
  if qText.truthy then
    match qText with
    | .str s =>
      pure (if (pyStrip s.data).isEmpty then texts
            else texts ++ [(⟨pyStrip s.data⟩ : String)])
    | _ => throw ()
  else pure texts

/-- Option collection of one loop iteration
(pdf_vision_pipeline.py:616-620): only a truthy `options` dict is walked;
a truthy non-dict raises at `.items()`. -/
def collectOptions (allOptions : PyDict) (part : PyDict) :
    Except Unit PyDict :=
  let opts := dGetD part "options" (.obj [])
  if opts.truthy then
    match opts with
    | .obj kvs => kvs.foldlM collectOption allOptions
    | _ => throw ()
  else pure allOptions

/-- The `diagram_pages` update of one loop iteration
(pdf_vision_pipeline.py:622-624). -/
def collectDiagramPages (dpages : List JVal) (part : PyDict) : List JVal :=
  let dp := dGet part "diagramPage"
  if dp.truthy then dpages ++ [dp] else dpages

/-- The in-place `merged` updates of one loop iteration
(pdf_vision_pipeline.py:626-632): first truthy `correctAnswer` wins; a
truthy non-`"single"` type overwrites. -/
def updateMerged (merged : PyDict) (part : PyDict) : PyDict :=
  let merged :=
    if (dGet part "correctAnswer").truthy && !(dGet merged "correctAnswer").truthy then
      dSet merged "correctAnswer" (dGet part "correctAnswer")
    else merged
  if (dGet part "type").truthy && jvalNeStr (dGet part "type") "single" then
    dSet merged "type" (dGet part "type")
  else merged

/-- One iteration of the `for part in parts` loop of
`merge_question_parts` (pdf_vision_pipeline.py:609-632). -/
def mergeStep (st : MergeSt) (part : PyDict) : Except Unit MergeSt := do
  let (texts, allOptions, dpages, merged) := st
  let texts ← collectText texts part
  let allOptions ← collectOptions allOptions part
  pure (texts, allOptions, collectDiagramPages dpages part, updateMerged merged part)

/-- `merge_question_parts` (pdf_vision_pipeline.py:597-663): merge the
members of one same-id group.  The merged dict starts as a copy of the
first member; question texts are joined after substring dedup, each option
slot keeps the LAST non-empty value encountered, the first truthy
`correctAnswer` wins, any non-`"single"` truthy type wins (last such), the
diagram page is the `min` of the truthy `diagramPage` values, and
`crossPage` is set.  `.strip()` / `.items()` on values of the wrong type
raise, modelled as `.error ()`. -/
def mergeQuestionParts (p0 : PyDict) (rest : List PyDict) :
    Except Unit PyDict := do
  let parts := p0 :: rest
  let st ← parts.foldlM mergeStep ([], [], [], p0)
  let (texts, allOptions, dpages, merged) := st
  let uniqueTexts := textsDedup texts
  let merged := dSet merged "question" (.str (String.intercalate " <br><br> " uniqueTexts))
  let merged :=
    if !allOptions.isEmpty then
      dSet (dSet merged "options" (.obj allOptions))
        "optionImages" (.obj (allOptions.map (fun kv => (kv.1, JVal.null))))
    else merged
  let merged ←
    match dpages with
    | [] => pure merged
    | d :: ds => do
      let m ← pyMinJ d ds
      pure (dSet merged "diagramPage" m)
  return dSet merged "crossPage" (.bool true)

/-- Association list keyed by Python values (`==` on hashable scalars),
insertion-ordered with in-place update, modelling an `int`/`str`-keyed dict. -/
def setAssoc (acc : List (JVal × JVal)) (key v : JVal) : List (JVal × JVal) :=
  match acc with
  | [] => [(key, v)]
  | (k, v') :: rest =>
    if JVal.scalarEq k key then (k, v) :: rest else (k, v') :: setAssoc rest key v

def assocFind (acc : List (JVal × JVal)) (key : JVal) : Option JVal :=
  match acc with
  | [] => none
  | (k, v) :: rest => if JVal.scalarEq k key then some v else assocFind rest key

/-- Grouping state of `merge_cross_page_questions`: key, first member,
later members. -/
abbrev QGroups := List (JVal × PyDict × List PyDict)

def insertGroup (gs : QGroups) (key : JVal) (q : PyDict) : QGroups :=
  match gs with
  | [] => [(key, q, [])]
  | (k, p, rest) :: gs' =>
    if JVal.scalarEq k key then (k, p, rest ++ [q]) :: gs'
    else (k, p, rest) :: insertGroup gs' key q

def groupByNormalizedId (qs : List PyDict) : Except Unit QGroups :=
  qs.foldlM
    (fun gs q =>
      let key := normalizeQuestionId (dGet q "id")
      if key.hashable then pure (insertGroup gs key q) else throw ())
    []

/-- Stable insertion into a sorted list, comparing Python sort keys with
`<` (which may raise `TypeError`). -/
def insertSortedE (keyf : PyDict → JVal) (x : PyDict) :
    List PyDict → Except Unit (List PyDict)
  | [] => .ok [x]
  | y :: ys => do
    let b ← pyLt (keyf y) (keyf x)
    if b then do
      let r ← insertSortedE keyf x ys
      pure (y :: r)
    else pure (x :: y :: ys)

/-- Stable sort by key, as `list.sort(key=...)`: succeeds exactly on lists
whose keys are mutually comparable, and raises `TypeError` otherwise. -/
def sortByKeyE (keyf : PyDict → JVal) : List PyDict → Except Unit (List PyDict)
  | [] => .ok []
  | x :: xs => do
    let s ← sortByKeyE keyf xs
    insertSortedE keyf x s

def mergeSortKey (q : PyDict) : JVal := normalizeQuestionId (dGet q "id")

/-- `merge_cross_page_questions` (pdf_vision_pipeline.py:565-594): group by
normalized id (dict-insertion order), pass singleton groups through, merge
multi-member groups, then sort by normalized id. -/
def mergeCrossPageQuestions (qs : List PyDict) : Except Unit (List PyDict) := do
  let groups ← groupByNormalizedId qs
  let merged ← groups.mapM
    (fun g =>
      match g with
      | (_, p, []) => pure p
      | (_, p, r :: rs) => mergeQuestionParts p (r :: rs))
  sortByKeyE mergeSortKey merged

/-- Python `float(str)` on a stripped decimal literal (`inf`/`nan` and
underscore separators are not modelled). -/
def parsePyFloat (s : String) : Option Frac :=
  let cs := pyStrip s.data
  let (neg, cs1) :=
    match cs with
    | '+' :: r => (false, r)
    | '-' :: r => (true, r)
    | _ => (false, cs)
  let (ids, r1) := cs1.span isDigitChar
  let fracP : Option (List Char × List Char) :=
    match r1 with
    | '.' :: r =>
      let p := r.span isDigitChar
      some (p.1, p.2)
    | _ => none
  let (fds, r2, hadDot) :=
    match fracP with
    | some (a, b) => (a, b, true)
    | none => ([], r1, false)
  if ids.isEmpty && fds.isEmpty then none
  else
    let expP : Option (Int × List Char) :=
      match r2 with
      | c :: r =>
        if c = 'e' || c = 'E' then
          let (eneg, r') :=
            match r with
            | '+' :: rr => (false, rr)
            | '-' :: rr => (true, rr)
            | _ => (false, r)
          match r'.span isDigitChar with
          | ([], _) => none
          | (es, r'') => some (if eneg then -(digitsVal es) else digitsVal es, r'')
        else some (0, r2)
      | [] => some (0, r2)
    match expP with
    | none => none
    | some (e, r3) =>
      if !r3.isEmpty then none
      else
        let mant := Frac.ofDecimal (digitsVal ids) (digitsVal fds) fds.length
        let v := if 0 ≤ e then Frac.mulPow10 mant e.toNat else Frac.divPow10 mant (-e).toNat
        some (if neg then Frac.neg v else v)

/-- The `answer_lookup` dict built from the answer-key entries
(pdf_vision_pipeline.py:822-829): later entries with an equal normalized
key overwrite earlier ones. -/
def answerLookup (answerKey : List JVal) : Except Unit (List (JVal × JVal)) :=
  answerKey.foldlM
    (fun (acc : List (JVal × JVal)) mapping => do
      match mapping with
      | .obj md =>
        let qn := dGet md "question_number"
        let ans := dGet md "answer"
        if !isNullJ qn && !isNullJ ans then
          let key := normalizeQuestionId qn
          if key.hashable then pure (setAssoc acc key ans) else throw ()
        else pure acc
      | _ => throw ())
    []

/-- `answer.upper() in ['A', 'B', 'C', 'D', 'E']`
(pdf_vision_pipeline.py:853). -/
def isLetterAnswer (a : String) : Bool :=
  let up : String := ⟨pyUpper a.data⟩
  up = "A" || up = "B" || up = "C" || up = "D" || up = "E"

/-- Application of a looked-up answer to one question
(pdf_vision_pipeline.py:837-871).  Note that the single-letter branch does
NOT touch the question's `type`. -/
def applyAnswer (lookup : List (JVal × JVal)) (q : PyDict) :
    Except Unit PyDict := do
  let nqid := normalizeQuestionId (dGet q "id")
  if !nqid.hashable then throw ()
  else
    match assocFind lookup nqid with
    | some answer =>
      match answer with
      | .arr l =>
        pure (dSet (dSet q "correctAnswer" (.arr l)) "type" (.str "multiple"))
      | .str a =>
        if isLetterAnswer a then
          pure (dSet q "correctAnswer" (.str ⟨pyUpper a.data⟩))
        else
          match parsePyFloat a with
          | some v =>
            pure (dSet (dSet q "correctAnswer"
              (.obj [("min", .flt v), ("max", .flt v)])) "type" (.str "numerical"))
          | none => pure (dSet q "correctAnswer" (.str a))
      | _ => pure q
    | none => pure q

/-- The question-update loop (`for q in questions`). -/
def applyAnswers (lookup : List (JVal × JVal)) :
    List PyDict → Except Unit (List PyDict)
  | [] => .ok []
  | q :: qs => do
    let q' ← applyAnswer lookup q
    let qs' ← applyAnswers lookup qs
    .ok (q' :: qs')

/-- `_match_answer_key` (pdf_vision_pipeline.py:815-877): build a
normalized-id → answer lookup (later entries overwrite), then for each
matched question overwrite `correctAnswer` (and possibly `type`): a list
answer sets type `multiple`; a string that uppercases to `A`-`E` sets just
the uppercased letter; a float-parseable string sets a `{min, max}` range
and type `numerical`; any other string is stored as-is; non-list,
non-string answers leave the question unchanged. -/
def matchAnswerKey (questions : List PyDict) (answerKey : List JVal) :
    Except Unit (List PyDict) := do
  let lookup ← answerLookup answerKey
  applyAnswers lookup questions

end PdfPipeline

namespace PdfPipeline

/-- One embedded image object of a PDF page, at the granularity the
PyMuPDF API exposes: extracted bytes, format, intrinsic size, and the
placement rectangles returned by `page.get_image_rects`. -/
structure XImg where
  content : List Nat
  ext : String
  width : Int
  height : Int
  rects : List Rect
deriving DecidableEq

structure PdfPage where
  imgs : List XImg
deriving DecidableEq

/-- A parsed PDF document (`fitz.open` result), as far as the extractors
observe it. -/
abbrev PdfDoc := List PdfPage

/-- The document's embedded-image objects, flattened in page order and
paired with their 0-based page index (the iteration order of the nested
`for page / for img` loops). -/
def docImgsFlatFrom (i : Nat) : PdfDoc → List (Nat × XImg)
  | [] => []
  | p :: ps => p.imgs.map (fun x => (i, x)) ++ docImgsFlatFrom (i + 1) ps

def docImgsFlat (doc : PdfDoc) : List (Nat × XImg) := docImgsFlatFrom 0 doc

/-- The record emitted for the first occurrence of an image's content. -/
def mkEmbImg (pageIdx : Nat) (x : XImg) : EmbImg :=
  { page := Int.ofNat pageIdx + 1
    data := x.content
    ext := x.ext
    width := x.width
    height := x.height
    bbox := x.rects.head?
    base64_uri := bytesToStr x.content }

/-- One step of the dedup loop of `extract_embedded_images`: the content
hash is recorded BEFORE the 20x20 size filter. -/
def embStep (st : List EmbImg × List (List Nat)) (pi : Nat × XImg) :
    List EmbImg × List (List Nat) :=
  let (pageIdx, x) := pi
  let (out, seen) := st
  if x.content ∈ seen then st
  else
    let seen := x.content :: seen
    if x.width < (20 : Int) ∨ x.height < (20 : Int) then (out, seen)
    else (out ++ [mkEmbImg pageIdx x], seen)

/-- `extract_embedded_images` (pdf_vision_pipeline.py:373-429): walk all
pages, deduplicate by content hash BEFORE the 20x20 size filter, and emit
one record per surviving first occurrence, with the FIRST placement
rectangle as bbox (or none). -/
def extractEmbeddedImages (doc : PdfDoc) : List EmbImg :=
  ((docImgsFlat doc).foldl embStep ([], [])).1

/-- `enumerate(image_list)`. -/
def imgsWithIdx (j : Nat) : List XImg → List (Nat × XImg)
  | [] => []
  | x :: xs => (j, x) :: imgsWithIdx (j + 1) xs

/-- Like `docImgsFlatFrom`, additionally keeping the 0-based per-page image
index used in the `img_<page>_<index>` ids. -/
def docImgsFlatIdxFrom (i : Nat) : PdfDoc → List (Nat × Nat × XImg)
  | [] => []
  | p :: ps =>
    (imgsWithIdx 0 p.imgs).map (fun jx => (i, jx.1, jx.2)) ++
      docImgsFlatIdxFrom (i + 1) ps

/-- The elements emitted for one surviving image object: one per placement
rect. -/
def mkVImgs (enhance : List Nat → List Nat)
    (classify : List Nat → String → String) (pageNum imgIndex : Nat)
    (x : XImg) : List VImg :=
  x.rects.map
    (fun r =>
      ({ id := "img_" ++ toString pageNum ++ "_" ++ toString imgIndex
         page_num := Int.ofNat pageNum + 1
         bbox := r
         content := x.content
         b64 := bytesToStr (enhance x.content)
         width := x.width
         height := x.height
         fmt := x.ext
         itype := classify (enhance x.content) x.ext
         source := "embedded" } : VImg))

/-- One step of the dedup loop of `extract_all_visual_elements`. -/
def allStep (enhance : List Nat → List Nat)
    (classify : List Nat → String → String)
    (st : List VImg × List (List Nat)) (t : Nat × Nat × XImg) :
    List VImg × List (List Nat) :=
  let (pageNum, imgIndex, x) := t
  let (out, seen) := st
  if x.content ∈ seen then st
  else (out ++ mkVImgs enhance classify pageNum imgIndex x, x.content :: seen)

/-- `diagram['id'] = f"diagram_{diagram['page_num']}_{i}"` over the
detector's output (image_extractor_v2.py:91-92). -/
def diagramsWithIds (i : Nat) : List VImg → List VImg
  | [] => []
  | d :: ds =>
    { d with id := "diagram_" ++ toString d.page_num ++ "_" ++ toString i } ::
      diagramsWithIds (i + 1) ds

/-- `extract_all_visual_elements` (image_extractor_v2.py:25-99): embedded
images are deduplicated by content hash, but every placement rect of the
surviving occurrence yields its own element.  `enhance` stands for the
OpenCV `_enhance_image_quality` step and `classify` for
`_classify_image_type`; `diagrams` is the (black-box) output of
`detect_and_extract_diagrams`, which receives its ids here. -/
def extractAllVisualElements (enhance : List Nat → List Nat)
    (classify : List Nat → String → String) (doc : PdfDoc)
    (diagrams : List VImg) : List VImg :=
  ((docImgsFlatIdxFrom 0 doc).foldl (allStep enhance classify) ([], [])).1 ++
    diagramsWithIds 0 diagrams

/-- Python `for` over a value: `some` elements, or `none` for `TypeError`. -/
def pyIterList : JVal → Option (List JVal)
  | .arr l => some l
  | .str s => some (s.data.map (fun c => JVal.str (String.singleton c)))
  | .obj kvs => some (kvs.map (fun kv => JVal.str kv.1))
  | _ => none

/-- Values on which Python `len(...)` succeeds. -/
def pyLenOk : JVal → Bool
  | .arr _ => true
  | .str _ => true
  | .obj _ => true
  | _ => false

/-- An uploaded file: name plus raw bytes. -/
structure FileData where
  filename : String
  content : List Nat
deriving DecidableEq

/-- Exceptions `process_files` can propagate to its caller. -/
inductive PipelineErr where
  | noApiKey
  | docOpen
  | noPages
  | zeroQuestions
  | mergeError
  | matchError
deriving DecidableEq, Repr

/-- The result dict of `process_files`. -/
structure FilesOut where
  title : String
  description : String
  questions : List PyDict
  canConfirm : Bool
  unansweredCount : Nat

/-- `process_answer_key` (pdf_vision_pipeline.py:484-549).  The document
conversion happens OUTSIDE the `try`, so an unopenable answer-key PDF
propagates; everything after (oracle call, fence stripping, JSON parse,
`answer_key` lookup, `len`) is inside the `try` and degrades to `[]`. -/
def processAnswerKey (docModel : List Nat → Except Unit PdfDoc)
    (renderFn : PdfDoc → List (List Nat)) (convertImg : List Nat → List Nat)
    (akOracle : Except Unit String) (ak : FileData) :
    Except PipelineErr JVal := do
  let images ←
    if is_pdf ak.content then
      match docModel ak.content with
      | .error _ => throw .docOpen
      | .ok doc => pure (renderFn doc)
    else if is_image ak.filename then pure [convertImg ak.content]
    else pure [ak.content]
  if images.isEmpty then return .arr []
  match akOracle with
  | .error _ => return .arr []
  | .ok raw =>
    match jsonLoads ⟨stripFences raw.data⟩ with
    | none => return .arr []
    | some (.obj dd) =>
      let akv := dGetD dd "answer_key" (.arr [])
      if pyLenOk akv then return akv else return .arr []
    | some _ => return .arr []

/-- The page images of batch `b` (0-based), with one page of overlap from
the previous batch (pdf_vision_pipeline.py:720-744). -/
def batchImages (allPages : List (List Nat)) (b : Nat) : List (List Nat) :=
  let total := allPages.length
  let start := 5 * b
  let stop := min (start + 5) total
  if b = 0 then allPages.take stop
  else (allPages.drop (start - 1)).take (stop - (start - 1))

/-- `process_files` (pdf_vision_pipeline.py:666-812), the main pipeline
entry point.  External collaborators are parameters: `docModel` is
`fitz.open`, `renderFn` is `render_pages_as_images` on an opened document,
`convertImg` is `convert_image_to_bytes` (which absorbs its own errors),
`oracle` is the per-batch Gemini call (`.error` = network failure or
blocked response), `akOracle` the answer-key Gemini call. -/
def processFiles (apiKeyOk : Bool) (docModel : List Nat → Except Unit PdfDoc)
    (renderFn : PdfDoc → List (List Nat)) (convertImg : List Nat → List Nat)
    (oracle : Nat → List (List Nat) → Except Unit String)
    (akOracle : Except Unit String) (files : List FileData)
    (answerKey : Option FileData) : Except PipelineErr FilesOut := do
  if !apiKeyOk then throw .noApiKey
  let akMappings : JVal ←
    match answerKey with
    | none => pure (.arr [])
    | some ak => processAnswerKey docModel renderFn convertImg akOracle ak
  let st ← files.foldlM
    (fun (st : List (List Nat) × List EmbImg) f => do
      if is_pdf f.content then
        match docModel f.content with
        | .error _ => throw PipelineErr.docOpen
        | .ok doc =>
          pure (st.1 ++ renderFn doc, st.2 ++ extractEmbeddedImages doc)
      else if is_image f.filename then
        pure (st.1 ++ [convertImg f.content], st.2)
      else pure (st.1 ++ [f.content], st.2))
    (([], []) : List (List Nat) × List EmbImg)
  let (allPages, allEmbedded) := st
  if allPages.isEmpty then throw .noPages
  let total := allPages.length
  let nBatches := (total + 4) / 5
  let allQuestions :=
    (List.range nBatches).foldl
      (fun (acc : List PyDict) b =>
        match oracle (b + 1) (batchImages allPages b) with
        | .error _ => acc
        | .ok raw =>
          match parseResponse raw allEmbedded with
          | .error _ => acc
          | .ok pr => if pr.questions.isEmpty then acc else acc ++ pr.questions)
      []
  if allQuestions.isEmpty then throw .zeroQuestions
  let unique ←
    match mergeCrossPageQuestions allQuestions with
    | .ok u => pure u
    | .error _ => throw PipelineErr.mergeError
  let unique ←
    if akMappings.truthy then
      match pyIterList akMappings with
      | none => throw PipelineErr.matchError
      | some maps =>
        match matchAnswerKey unique maps with
        | .ok u => pure u
        | .error _ => throw PipelineErr.matchError
    else pure unique
  return { title := "Extracted Exam"
           description := "Extracted from " ++ toString total ++ " pages"
           questions := unique
           canConfirm := unique.all (fun q => !isNullJ (dGet q "correctAnswer"))
           unansweredCount := unique.countP (fun q => isNullJ (dGet q "correctAnswer")) }

end PdfPipeline

namespace PdfPipeline

/-- Per-page extraction data fed to the enhanced pipeline
(`extract_with_spatial_analysis`, pdf_extractor_v2.py:19-96).  The layout
fields are only forwarded to the opaque oracle. -/
structure PageData where
  text_blocks : List Line
  page_width : Option Frac := none
  page_height : Option Frac := none
  num_columns : Int := 1

/-- Last-binding-wins lookup, as a Python dict comprehension lookup. -/
def lookupLast (m : List (String × String)) (k : String) : Option String :=
  m.foldl (fun acc p => if p.1 = k then some p.2 else acc) none

/-- `_parse_gemini_response` (ai_reasoner_v2.py:145-209), in the exception
monad; the caller absorbs any raise into `[]`. -/
def parseGeminiResponseE (rawText : String) (pageNum : Int) :
    Except Unit (List PyDict) := do
  match jsonLoads ⟨stripFences rawText.data⟩ with
  | none => return []
  | some j =>
    let questions? : Option JVal :=
      match j with
      | .obj dd => some (dGetD dd "questions" (.arr []))
      | .arr l => some (.arr l)
      | _ => none
    match questions? with
    | none => return []
    | some questions =>
      match pyIterList questions with
      | none => throw ()
      | some qlist =>
        qlist.foldlM
          (fun (acc : List PyDict) q => do
            match q with
            | .obj qd =>
              if !dHasKey qd "questionText" then pure acc
              else do
                let metadata := dGetD qd "metadata" (.obj [])
                let metadata' ←
                  match metadata with
                  | .obj md =>
                    pure (JVal.obj (if dHasKey md "page" then md
                                    else dSet md "page" (.int pageNum)))
                  | .str s =>
                    if pyInStr "page".data s.data then pure (JVal.str s) else throw ()
                  | .arr l =>
                    if l.any (fun v =>
                        match v with
                        | .str t => t = "page"
                        | _ => false) then pure (JVal.arr l)
                    else throw ()
                  | _ => throw ()
                pure (acc ++
                  [[("questionText", dGetD qd "questionText" (.str "")),
                    ("options", dGetD qd "options" (.obj [])),
                    ("image", dGet qd "image"),
                    ("optionImages", dGetD qd "optionImages" (.obj [])),
                    ("correctAnswer", dGet qd "correctAnswer"),
                    ("needsAnswer", dGetD qd "needsAnswer" (.bool true)),
                    ("type", dGetD qd "type" (.str "single")),
                    ("metadata", metadata')]])
            | _ => pure acc)
          []

/-- `_parse_gemini_response` with its enclosing `except` branches: any
raise yields `[]`. -/
def parseGeminiResponse (rawText : String) (pageNum : Int) : List PyDict :=
  match parseGeminiResponseE rawText pageNum with
  | .ok l => l
  | .error _ => []

/-- `analyze_with_vision_and_text` (ai_reasoner_v2.py:34-142): the oracle
round trip; a blocked or failed call (and any parse exception) is absorbed
into `[]`.  The request payload (text blocks, images, relationships,
layout) only parameterizes the opaque oracle. -/
def analyzeWithVisionAndText (oracleRaw : Int → Except Unit String)
    (pageNum : Int) : List PyDict :=
  match oracleRaw pageNum with
  | .error _ => []
  | .ok raw => parseGeminiResponse raw pageNum

/-- Output shape of `run_enhanced_pipeline`. -/
structure EnhancedOut where
  questions : List PyDict
  canConfirm : Bool
  unansweredCount : Nat

/-- Stable insertion sort of pages by page number (`sorted(pages_data.keys())`). -/
def insertPage (x : Int × PageData) : List (Int × PageData) → List (Int × PageData)
  | [] => [x]
  | y :: ys => if y.1 ≤ x.1 then y :: insertPage x ys else x :: y :: ys

def sortPages : List (Int × PageData) → List (Int × PageData)
  | [] => []
  | x :: xs => insertPage x (sortPages xs)

/-- Post-processing of one page's questions in `run_enhanced_pipeline`
(preview_pipeline_v2.py:112-136): assign the global id and resolve
image/optionImages references against the page's id → base64 map. -/
def postProcessQuestion (pageImgMap : List (String × String)) (counter : Nat)
    (q : PyDict) : Except Unit PyDict := do
  let q := dSet q "id" (.int counter)
  let qimg := dGet q "image"
  let q ←
    if qimg.truthy then
      if !qimg.hashable then throw ()
      else
        match qimg with
        | .str s =>
          match lookupLast pageImgMap s with
          | some b => pure (dSet q "image" (.str b))
          | none => pure (dSet q "image" .null)
        | _ => pure (dSet q "image" .null)
    else pure (dSet q "image" .null)
  let oimgs := dGet q "optionImages"
  if oimgs.truthy then
    match oimgs with
    | .obj kvs => do
      let kvs' ← kvs.foldlM
        (fun (acc : PyDict) kv => do
          let (k, v) := kv
          if v.truthy then
            if !v.hashable then throw ()
            else
              match v with
              | .str s =>
                match lookupLast pageImgMap s with
                | some b => pure (dSet acc k (.str b))
                | none => pure (dSet acc k .null)
              | _ => pure (dSet acc k .null)
          else pure (dSet acc k .null))
        kvs
      pure (dSet q "optionImages" (.obj kvs'))
    | _ => throw ()
  else
    pure (dSet q "optionImages"
      (.obj [("A", .null), ("B", .null), ("C", .null), ("D", .null)]))

/-- `run_enhanced_pipeline` (preview_pipeline_v2.py:17-158).  Pages are
processed in ascending page-number order; a page whose oracle result is
empty falls back to the deterministic extraction; global ids are assigned
and image references resolved; the final statistics are computed from the
`needsAnswer` flags; zero total questions raises. -/
def runEnhancedPipeline (oracleRaw : Int → Except Unit String)
    (pagesData : List (Int × PageData)) (allImages : List VImg) :
    Except Unit EnhancedOut := do
  let pages := sortPages pagesData
  let st ← pages.foldlM
    (fun (st : List PyDict × Nat) pp => do
      let (finalQuestions, counter) := st
      let (pageNum, pd) := pp
      let pageImages := allImages.filter (fun im => im.page_num = pageNum)
      let aiQs := analyzeWithVisionAndText oracleRaw pageNum
      let (pageQuestions, imgs') :=
        if aiQs.isEmpty then fallbackToDeterministic pd.text_blocks pageImages pageNum
        else (aiQs, pageImages)
      let pageImgMap := imgs'.map (fun im => (im.id, im.b64))
      let st2 ← pageQuestions.foldlM
        (fun (st2 : List PyDict × Nat) q => do
          let (fq, counter) := st2
          let q' ← postProcessQuestion pageImgMap counter q
          pure (fq ++ [q'], counter + 1))
        (finalQuestions, counter)
      pure st2)
    (([], 1) : List PyDict × Nat)
  let finalQuestions := st.1
  let unansweredCount := finalQuestions.countP (fun q => (dGet q "needsAnswer").truthy)
  let canConfirm := unansweredCount = 0
  if finalQuestions.isEmpty then throw ()
  return { questions := finalQuestions
           canConfirm := canConfirm
           unansweredCount := unansweredCount }

/-- Total number of deterministically detected question anchors over the
pages of a document, the `N` of the non-loss property. -/
def totalAnchors (pagesData : List (Int × PageData)) : Nat :=
  (sortPages pagesData).foldl
    (fun n pp => n + (detectQuestionAnchors pp.2.text_blocks).length) 0

end PdfPipeline


namespace PdfPipeline

/-! ## Specification-side helper functions used by the theorems -/

/-- Last non-blank string value bound to `key` in one options association
list (later bindings win, mirroring the overwrite in the merge loop). -/
def kvsLastNonBlank : List (String × JVal) → String → Option JVal
  | [], _ => none
  | kv :: kvs, key =>
    match kvsLastNonBlank kvs key with
    | some v => some v
    | none =>
      if kv.1 = key then
        match kv.2 with
        | .str vs => if (pyStrip vs.data).isEmpty then none else some (.str vs)
        | _ => none
      else none

/-- The non-blank option value a single group member contributes for `key`
(only members whose `options` is a truthy dict contribute). -/
def partOptionValue (part : PyDict) (key : String) : Option JVal :=
  match dGetD part "options" (.obj []) with
  | .obj kvs => if (JVal.obj kvs).truthy then kvsLastNonBlank kvs key else none
  | _ => none

/-- The LAST non-blank option value for `key` over the members in order. -/
def lastNonEmptyOptionValue : List PyDict → String → Option JVal
  | [], _ => none
  | part :: parts, key =>
    match lastNonEmptyOptionValue parts key with
    | some v => some v
    | none => partOptionValue part key

/-- The first truthy `correctAnswer` among the members. -/
def firstTruthyAnswer (parts : List PyDict) : Option JVal :=
  parts.findSome?
    (fun part =>
      let a := dGet part "correctAnswer"
      if a.truthy then some a else none)

/-- The truthy `diagramPage` values of the members, in order. -/
def truthyDiagramPages (parts : List PyDict) : List JVal :=
  parts.filterMap
    (fun part =>
      let d := dGet part "diagramPage"
      if d.truthy then some d else none)

/-- Look a key up inside a question's `options` value. -/
def optionsFind (m : PyDict) (key : String) : Option JVal :=
  match dGet m "options" with
  | .obj kvs => dFind? kvs key
  | _ => none

/-- Number of emitted `extract_embedded_images` records carrying a given
byte content. -/
def embContentCount (es : List EmbImg) (c : List Nat) : Nat :=
  es.countP (fun e => e.data = c)

/-- Number of emitted `extract_all_visual_elements` records carrying a
given byte content. -/
def vimgContentCount (es : List VImg) (c : List Nat) : Nat :=
  es.countP (fun e => e.content = c)

/-- The first embedded-image object of the document (page order, then
in-page order) with the given content. -/
def firstOcc (doc : PdfDoc) (c : List Nat) : Option XImg :=
  (doc.flatMap (fun p => p.imgs)).find? (fun x => x.content = c)

end PdfPipeline

namespace PdfPipeline

/-! ## Basic lemmas about the dict model -/

theorem dFind?_dSet_self (d : PyDict) (k : String) (v : JVal) :
    dFind? (dSet d k v) k = some v := by
  induction d with
  | nil => simp [dSet, dFind?]
  | cons kv rest ih =>
    obtain ⟨k', v'⟩ := kv
    by_cases h : k' = k
    · simp [dSet, dFind?, h]
    · simp [dSet, dFind?, h, ih]

theorem dFind?_dSet_other (d : PyDict) (k k' : String) (v : JVal)
    (h : k' ≠ k) : dFind? (dSet d k v) k' = dFind? d k' := by
  induction d with
  | nil =>
    simp only [dSet, dFind?]
    rw [if_neg (fun hh => h hh.symm)]
  | cons kv rest ih =>
    obtain ⟨k0, v0⟩ := kv
    by_cases h0 : k0 = k
    · subst h0
      simp only [dSet, if_pos rfl, dFind?]
      rw [if_neg (fun hh : k0 = k' => h hh.symm), if_neg (fun hh : k0 = k' => h hh.symm)]
    · simp only [dSet, if_neg h0, dFind?]
      by_cases h1 : k0 = k'
      · simp [h1]
      · simp [h1, ih]

theorem dGet_dSet_self (d : PyDict) (k : String) (v : JVal) :
    dGet (dSet d k v) k = v := by
  simp [dGet, dFind?_dSet_self]

theorem dGet_dSet_other (d : PyDict) (k k' : String) (v : JVal) (h : k' ≠ k) :
    dGet (dSet d k v) k' = dGet d k' := by
  simp [dGet, dFind?_dSet_other _ _ _ _ h]

end PdfPipeline

namespace PdfPipeline

/-! ## C10 — input sniffing -/

/-- C10: `is_pdf` accepts exactly byte strings starting with `%PDF`
(`[37, 80, 68, 70]`), but `is_image` does NOT discriminate by extension:
its generator variable shadows the lowercased filename, so it returns
`true` for every filename, including `document.txt`. -/
theorem C10_input_sniffing :
    is_pdf [37, 80, 68, 70, 45, 49, 46, 52] = true ∧
    is_pdf [80, 75, 3, 4] = false ∧
    (∀ bs : List Nat, is_pdf bs = [37, 80, 68, 70].isPrefixOf bs) ∧
    is_image "document.txt" = true ∧
    (∀ s : String, is_image s = true) :=
  ⟨rfl, rfl, fun _ => rfl, rfl, fun _ => rfl⟩

/-! ## C2 — truncated-JSON repair -/

/-- The truncated oracle output of the spec's repair test case. -/
def truncatedOracleOutput : String :=
  "\x7b\"questions\":[\x7b\"id\":1,\"marks\":4,\"negativeMarks\":1"

/-- C2: on the truncated oracle output
`{"questions":[{"id":1,"marks":4,"negativeMarks":1` the repair pass finds
the `"negativeMarks"` key but no `}` after it, so `_sanitize_gemini_json`
returns the text UNCHANGED, the reparse fails, and `_parse_response`
raises `ValueError` instead of producing valid JSON with question id 1. -/
theorem C2_truncated_repair_raises :
    sanitizeGeminiJson truncatedOracleOutput.data = truncatedOracleOutput.data ∧
    repairTruncatedJson truncatedOracleOutput.data = truncatedOracleOutput.data ∧
    jsonLoads truncatedOracleOutput = none ∧
    parseResponse truncatedOracleOutput [] = .error .invalidJson :=
  ⟨rfl, rfl, rfl, rfl⟩

end PdfPipeline

namespace PdfPipeline

/-! ## Lemmas about `merge_question_parts` -/

theorem exc_bind_ok {ε α β : Type} (a : α) (f : α → Except ε β) :
    (Except.ok a >>= f) = f a := rfl

theorem exc_bind_err {ε α β : Type} (e : ε) (f : α → Except ε β) :
    ((Except.error e : Except ε α) >>= f) = Except.error e := rfl

theorem exc_pure {ε α : Type} (a : α) : (pure a : Except ε α) = Except.ok a := rfl

theorem collectOption_fold (kvs : List (String × JVal)) :
    ∀ (acc acc' : PyDict), kvs.foldlM collectOption acc = .ok acc' →
    ∀ key, dFind? acc' key =
      (match kvsLastNonBlank kvs key with
       | some v => some v
       | none => dFind? acc key) := by
  induction kvs with
  | nil =>
    intro acc acc' h key
    simp only [List.foldlM_nil, exc_pure] at h
    cases h
    simp [kvsLastNonBlank]
  | cons kv kvs ih =>
    intro acc acc' h key
    simp only [List.foldlM_cons] at h
    cases hstep : collectOption acc kv with
    | error e => rw [hstep, exc_bind_err] at h; cases h
    | ok a1 =>
      rw [hstep, exc_bind_ok] at h
      have := ih a1 acc' h key
      rw [this]
      obtain ⟨k0, v0⟩ := kv
      simp only [kvsLastNonBlank]
      cases htail : kvsLastNonBlank kvs key with
      | some v => simp
      | none =>
        simp only []
        -- analyse the single step
        simp only [collectOption] at hstep
        by_cases htr : v0.truthy
        · rw [if_pos htr] at hstep
          cases v0 with
          | str vs =>
            simp only [] at hstep
            by_cases hblank : (pyStrip vs.data).isEmpty
            · simp only [hblank, if_pos] at hstep
              cases hstep
              by_cases hk : k0 = key
              · simp [hk, hblank]
              · simp [hk]
            · simp only [hblank, if_neg, Bool.false_eq_true, not_false_iff] at hstep
              cases hstep
              by_cases hk : k0 = key
              · subst hk
                simp [hblank, dFind?_dSet_self]
              · simp only [hk, if_neg, Bool.false_eq_true, not_false_iff]
                exact dFind?_dSet_other acc k0 key (.str vs) (fun hh => hk hh.symm)
          | null => simp [JVal.truthy] at htr
          | bool b => cases hstep
          | int n => cases hstep
          | flt q => cases hstep
          | arr xs => cases hstep
          | obj o => cases hstep
        · rw [if_neg htr] at hstep
          cases hstep
          by_cases hk : k0 = key
          · subst hk
            cases v0 with
            | str vs =>
              have : vs = "" := by
                by_contra hne
                exact htr (by simp [JVal.truthy, hne])
              subst this
              simp [pyStrip, pyLStrip, pyRStrip]
            | null => simp
            | bool b => simp [JVal.truthy] at htr; simp [htr]
            | int n => simp
            | flt q => simp
            | arr xs => simp
            | obj o => simp
          · simp [hk]

end PdfPipeline

namespace PdfPipeline

theorem collectOptions_spec (opts : PyDict) (part : PyDict) (opts' : PyDict)
    (h : collectOptions opts part = .ok opts') :
    ∀ key, dFind? opts' key =
      (match partOptionValue part key with
       | some v => some v
       | none => dFind? opts key) := by
  intro key
  simp only [collectOptions] at h
  simp only [partOptionValue]
  cases hopt : dGetD part "options" (.obj []) with
  | obj kvs =>
    rw [hopt] at h
    dsimp only at h ⊢
    by_cases htr : (JVal.obj kvs).truthy
    · rw [if_pos htr] at h
      rw [if_pos htr]
      exact collectOption_fold kvs opts opts' h key
    · rw [if_neg htr] at h
      rw [if_neg htr]
      cases h
      rfl
  | null => rw [hopt] at h; simp [JVal.truthy] at h; cases h; rfl
  | bool b =>
    rw [hopt] at h
    by_cases htr : (JVal.bool b).truthy
    · rw [if_pos htr] at h; cases h
    · rw [if_neg htr] at h; cases h; rfl
  | int n =>
    rw [hopt] at h
    by_cases htr : (JVal.int n).truthy
    · rw [if_pos htr] at h; cases h
    · rw [if_neg htr] at h; cases h; rfl
  | flt q =>
    rw [hopt] at h
    by_cases htr : (JVal.flt q).truthy
    · rw [if_pos htr] at h; cases h
    · rw [if_neg htr] at h; cases h; rfl
  | str t =>
    rw [hopt] at h
    by_cases htr : (JVal.str t).truthy
    · rw [if_pos htr] at h; cases h
    · rw [if_neg htr] at h; cases h; rfl
  | arr xs =>
    rw [hopt] at h
    by_cases htr : (JVal.arr xs).truthy
    · rw [if_pos htr] at h; cases h
    · rw [if_neg htr] at h; cases h; rfl

theorem updateMerged_correctAnswer (mg part : PyDict) :
    dGet (updateMerged mg part) "correctAnswer" =
      (if (dGet part "correctAnswer").truthy && !(dGet mg "correctAnswer").truthy then
        dGet part "correctAnswer"
      else dGet mg "correctAnswer") := by
  simp only [updateMerged]
  by_cases h1 : (dGet part "correctAnswer").truthy && !(dGet mg "correctAnswer").truthy
  · rw [if_pos h1]
    by_cases h2 : (dGet part "type").truthy && jvalNeStr (dGet part "type") "single"
    · rw [if_pos h2, if_pos h1,
        dGet_dSet_other _ _ _ _ (by decide : "correctAnswer" ≠ "type"),
        dGet_dSet_self]
    · rw [if_neg h2, if_pos h1, dGet_dSet_self]
  · rw [if_neg h1]
    by_cases h2 : (dGet part "type").truthy && jvalNeStr (dGet part "type") "single"
    · rw [if_pos h2, if_neg h1,
        dGet_dSet_other _ _ _ _ (by decide : "correctAnswer" ≠ "type")]
    · rw [if_neg h2, if_neg h1]

theorem updateMerged_other (mg part : PyDict) (k : String)
    (hca : k ≠ "correctAnswer") (hty : k ≠ "type") :
    dGet (updateMerged mg part) k = dGet mg k := by
  simp only [updateMerged]
  by_cases h1 : (dGet part "correctAnswer").truthy && !(dGet mg "correctAnswer").truthy
  · rw [if_pos h1]
    by_cases h2 : (dGet part "type").truthy && jvalNeStr (dGet part "type") "single"
    · rw [if_pos h2, dGet_dSet_other _ _ _ _ hty, dGet_dSet_other _ _ _ _ hca]
    · rw [if_neg h2, dGet_dSet_other _ _ _ _ hca]
  · rw [if_neg h1]
    by_cases h2 : (dGet part "type").truthy && jvalNeStr (dGet part "type") "single"
    · rw [if_pos h2, dGet_dSet_other _ _ _ _ hty]
    · rw [if_neg h2]

end PdfPipeline

namespace PdfPipeline

/-- Invariants carried by the `merge_question_parts` loop across a list of
parts. -/
theorem mergeStep_fold (parts : List PyDict) :
    ∀ (texts : List String) (opts : PyDict) (dps : List JVal) (mg : PyDict)
      (st' : MergeSt),
    parts.foldlM mergeStep (texts, opts, dps, mg) = .ok st' →
    (∀ key, dFind? st'.2.1 key =
      (match lastNonEmptyOptionValue parts key with
       | some v => some v
       | none => dFind? opts key)) ∧
    st'.2.2.1 = dps ++ truthyDiagramPages parts ∧
    dGet st'.2.2.2 "correctAnswer" =
      (if (dGet mg "correctAnswer").truthy then dGet mg "correctAnswer"
       else (firstTruthyAnswer parts).getD (dGet mg "correctAnswer")) ∧
    (∀ k, k ≠ "correctAnswer" → k ≠ "type" → dGet st'.2.2.2 k = dGet mg k) := by
  induction parts with
  | nil =>
    intro texts opts dps mg st' h
    simp only [List.foldlM_nil, exc_pure] at h
    cases h
    refine ⟨fun key => by simp [lastNonEmptyOptionValue],
      by simp [truthyDiagramPages], ?_, fun k _ _ => rfl⟩
    simp only [firstTruthyAnswer, List.findSome?_nil, Option.getD_none]
    by_cases htr : (dGet mg "correctAnswer").truthy
    · rw [if_pos htr]
    · rw [if_neg htr]
  | cons part parts ih =>
    intro texts opts dps mg st' h
    simp only [List.foldlM_cons] at h
    cases hstep : mergeStep (texts, opts, dps, mg) part with
    | error e => rw [hstep, exc_bind_err] at h; cases h
    | ok st1 =>
      rw [hstep, exc_bind_ok] at h
      simp only [mergeStep] at hstep
      cases hT : collectText texts part with
      | error e => rw [hT, exc_bind_err] at hstep; cases hstep
      | ok texts1 =>
        rw [hT, exc_bind_ok] at hstep
        cases hO : collectOptions opts part with
        | error e => rw [hO, exc_bind_err] at hstep; cases hstep
        | ok opts1 =>
          rw [hO, exc_bind_ok, exc_pure] at hstep
          have hst1 : st1 =
              (texts1, opts1, collectDiagramPages dps part, updateMerged mg part) :=
            (Except.ok.inj hstep).symm
          subst hst1
          obtain ⟨ia, ib, ic, idd⟩ :=
            ih texts1 opts1 (collectDiagramPages dps part) (updateMerged mg part) st' h
          refine ⟨?_, ?_, ?_, ?_⟩
          · intro key
            rw [ia key]
            have hopts := collectOptions_spec opts part opts1 hO key
            simp only [lastNonEmptyOptionValue]
            cases htail : lastNonEmptyOptionValue parts key with
            | some v => simp
            | none => simpa using hopts
          · rw [ib]
            simp only [collectDiagramPages, truthyDiagramPages, List.filterMap_cons]
            by_cases hdp : (dGet part "diagramPage").truthy
            · rw [if_pos hdp]
              simp [hdp, List.append_assoc]
            · rw [if_neg hdp]
              simp [hdp]
          · rw [ic, updateMerged_correctAnswer]
            simp only [firstTruthyAnswer, List.findSome?_cons]
            by_cases hA : (dGet mg "correctAnswer").truthy
            · simp [hA]
            · by_cases hP : (dGet part "correctAnswer").truthy
              · simp [hA, hP]
              · simp [hA, hP]
          · intro k hca hty
            rw [idd k hca hty, updateMerged_other mg part k hca hty]

end PdfPipeline

namespace PdfPipeline

theorem frac_blt_ofInt (a b : Int) :
    Frac.blt (Frac.ofInt a) (Frac.ofInt b) = decide (a < b) := by
  simp [Frac.blt, Frac.ofInt]

/-- Python `min` over integer pages computes a true minimum. -/
theorem pyMinJ_ints (l : List Int) : ∀ a : Int,
    ∃ m : Int, pyMinJ (.int a) (l.map JVal.int) = .ok (.int m) ∧
      (m = a ∨ m ∈ l) ∧ m ≤ a ∧ ∀ x ∈ l, m ≤ x := by
  induction l with
  | nil =>
    intro a
    exact ⟨a, rfl, Or.inl rfl, le_refl a, by simp⟩
  | cons b l ih =>
    intro a
    have hstep : pyMinJ (.int a) ((b :: l).map JVal.int) =
        pyMinJ (.int (if b < a then b else a)) (l.map JVal.int) := by
      simp only [List.map_cons, pyMinJ, List.foldlM_cons, pyLt, JVal.toNum,
        frac_blt_ofInt, exc_bind_ok, exc_pure]
      by_cases hb : b < a
      · simp [hb]
      · simp [hb]
    obtain ⟨m, hm, hmem, hle, hall⟩ := ih (if b < a then b else a)
    refine ⟨m, by rw [hstep]; exact hm, ?_, ?_, ?_⟩
    · rcases hmem with h | h
      · by_cases hb : b < a
        · rw [if_pos hb] at h; exact Or.inr (by simp [h])
        · rw [if_neg hb] at h; exact Or.inl h
      · exact Or.inr (List.mem_cons_of_mem _ h)
    · by_cases hb : b < a
      · rw [if_pos hb] at hle; omega
      · rw [if_neg hb] at hle; exact hle
    · intro x hx
      rcases List.mem_cons.mp hx with rfl | hx
      · by_cases hb : x < a
        · rw [if_pos hb] at hle; exact hle
        · rw [if_neg hb] at hle; omega
      · exact hall x hx

end PdfPipeline

namespace PdfPipeline

/-! ## C3 — merge semantics of same-numbered question groups -/

/-- C3 (as amended): when the reconciler merges a multi-member group, the
merged unit has `crossPage = true`; for every option key the merged option
map holds the LAST non-blank value encountered over the members in order
(not the first); the first TRUTHY `correctAnswer` wins (and when no member
has one, the first member's value is kept); and the merged diagram page is
the minimum page number among members that declare a truthy one. -/
theorem C3_merge_question_parts (p : PyDict) (rest : List PyDict) (m : PyDict)
    (key : String) (v : JVal) (ints : List Int) (a : Int)
    (hok : mergeQuestionParts p rest = .ok m)
    (hlast : lastNonEmptyOptionValue (p :: rest) key = some v)
    (hpages : truthyDiagramPages (p :: rest) = (a :: ints).map JVal.int) :
    dGet m "crossPage" = .bool true ∧
    optionsFind m key = some v ∧
    (firstTruthyAnswer (p :: rest) = none →
      dGet m "correctAnswer" = dGet p "correctAnswer") ∧
    (∀ ca, firstTruthyAnswer (p :: rest) = some ca →
      dGet m "correctAnswer" = ca) ∧
    (∃ mn : Int, dGet m "diagramPage" = .int mn ∧ (mn = a ∨ mn ∈ ints) ∧
      mn ≤ a ∧ ∀ x ∈ ints, mn ≤ x) := by
  simp only [mergeQuestionParts] at hok
  cases hfold : (p :: rest).foldlM mergeStep ([], [], [], p) with
  | error e => rw [hfold, exc_bind_err] at hok; cases hok
  | ok st =>
    rw [hfold, exc_bind_ok] at hok
    obtain ⟨texts, allOpts, dps, mg⟩ := st
    obtain ⟨ia, ib, ic, idd⟩ := mergeStep_fold (p :: rest) [] [] [] p _ hfold
    simp only [List.nil_append] at ib
    dsimp only at hok ia ib ic idd
    -- the option table holds our key
    have hfindA : dFind? allOpts key = some v := by
      have := ia key
      rw [hlast] at this
      simpa using this
    have hAne : allOpts ≠ [] := by
      intro hnil
      rw [hnil] at hfindA
      simp [dFind?] at hfindA
    -- the final assembly
    rw [ib, hpages] at hok
    simp only [List.map_cons] at hok
    obtain ⟨mn, hmn, hmnmem, hmnle, hmnall⟩ := pyMinJ_ints ints a
    rw [hmn, exc_bind_ok] at hok
    have hne' : (!allOpts.isEmpty) = true := by
      simp [List.isEmpty_iff, hAne]
    rw [if_pos hne'] at hok
    simp only [exc_pure, exc_bind_ok] at hok
    have hm : m =
        dSet (dSet (dSet (dSet (dSet mg "question"
            (.str (String.intercalate " <br><br> " (textsDedup texts))))
          "options" (.obj allOpts))
          "optionImages" (.obj (allOpts.map (fun kv => (kv.1, JVal.null)))))
          "diagramPage" (.int mn)) "crossPage" (.bool true) :=
      (Except.ok.inj hok).symm
    subst hm
    refine ⟨dGet_dSet_self _ _ _, ?_, ?_, ?_, ?_⟩
    · simp only [optionsFind,
        dGet_dSet_other _ _ _ _ (by decide : "options" ≠ "crossPage"),
        dGet_dSet_other _ _ _ _ (by decide : "options" ≠ "diagramPage"),
        dGet_dSet_other _ _ _ _ (by decide : "options" ≠ "optionImages"),
        dGet_dSet_self]
      exact hfindA
    · intro hnone
      have hpfalsy : ¬(dGet p "correctAnswer").truthy := by
        intro htr
        simp [firstTruthyAnswer, List.findSome?_cons, htr] at hnone
      simp only [dGet_dSet_other _ _ _ _ (by decide : "correctAnswer" ≠ "crossPage"),
        dGet_dSet_other _ _ _ _ (by decide : "correctAnswer" ≠ "diagramPage"),
        dGet_dSet_other _ _ _ _ (by decide : "correctAnswer" ≠ "optionImages"),
        dGet_dSet_other _ _ _ _ (by decide : "correctAnswer" ≠ "options"),
        dGet_dSet_other _ _ _ _ (by decide : "correctAnswer" ≠ "question")]
      rw [ic, if_neg hpfalsy, hnone]
      rfl
    · intro ca hca
      simp only [dGet_dSet_other _ _ _ _ (by decide : "correctAnswer" ≠ "crossPage"),
        dGet_dSet_other _ _ _ _ (by decide : "correctAnswer" ≠ "diagramPage"),
        dGet_dSet_other _ _ _ _ (by decide : "correctAnswer" ≠ "optionImages"),
        dGet_dSet_other _ _ _ _ (by decide : "correctAnswer" ≠ "options"),
        dGet_dSet_other _ _ _ _ (by decide : "correctAnswer" ≠ "question")]
      rw [ic]
      by_cases hp : (dGet p "correctAnswer").truthy
      · rw [if_pos hp]
        have : firstTruthyAnswer (p :: rest) = some (dGet p "correctAnswer") := by
          simp [firstTruthyAnswer, List.findSome?_cons, hp]
        rw [this] at hca
        exact (Option.some.inj hca)
      · rw [if_neg hp, hca]
        rfl
    · refine ⟨mn, ?_, hmnmem, hmnle, hmnall⟩
      simp only [dGet_dSet_other _ _ _ _ (by decide : "diagramPage" ≠ "crossPage"),
        dGet_dSet_self]

end PdfPipeline

namespace PdfPipeline

/-- Two fragments of the same question whose option `A` is non-empty in
both; the claim predicts the FIRST value survives the merge. -/
def c3part1 : PyDict :=
  [("id", .int 7), ("question", .str "What is X"),
   ("options", .obj [("A", .str "first value")])]

def c3part2 : PyDict :=
  [("id", .int 7), ("question", .str "continued"),
   ("options", .obj [("A", .str "second value")])]

/-- C3 counterexample: merging two members whose option `A` holds the
non-empty values `"first value"` then `"second value"` yields
`"second value"` — the LAST non-empty value, not the first as claimed. -/
theorem C3_counterexample :
    (match mergeQuestionParts c3part1 [c3part2] with
     | .ok m => optionsFind m "A"
     | .error _ => none) = some (.str "second value") ∧
    JVal.str "second value" ≠ JVal.str "first value" :=
  ⟨rfl, fun h => absurd (JVal.str.inj h) (by decide)⟩

def c3wp : PyDict :=
  [("id", .int 3), ("question", .str "Start"),
   ("options", .obj [("A", .str "first")]),
   ("correctAnswer", JVal.null), ("diagramPage", .int 4)]

def c3wr : PyDict :=
  [("id", .int 3), ("question", .str "More"),
   ("options", .obj [("A", .str "second"), ("B", .str "bee")]),
   ("correctAnswer", .str "B"), ("diagramPage", .int 2)]

/-- Witness for `C3_merge_question_parts` at a concrete two-member group. -/
theorem C3_merge_question_parts_witness :
    ∃ m, mergeQuestionParts c3wp [c3wr] = .ok m ∧
      dGet m "crossPage" = .bool true ∧
      optionsFind m "A" = some (.str "second") ∧
      dGet m "correctAnswer" = .str "B" ∧
      (∃ mn : Int, dGet m "diagramPage" = .int mn ∧ (mn = 4 ∨ mn ∈ [2]) ∧
        mn ≤ 4 ∧ ∀ x ∈ [2], mn ≤ x) := by
  obtain ⟨m, hm⟩ : ∃ m, mergeQuestionParts c3wp [c3wr] = .ok m := ⟨_, rfl⟩
  have h := C3_merge_question_parts c3wp [c3wr] m "A" (.str "second") [2] 4
    hm (by rfl) (by rfl)
  exact ⟨m, hm, h.1, h.2.1, h.2.2.2.1 (.str "B") (by rfl), h.2.2.2.2⟩

end PdfPipeline

namespace PdfPipeline

/-! ## C4 — answer-key matching -/

theorem applyAnswers_spec (lookup : List (JVal × JVal)) (qs : List PyDict) :
    ∀ (out : List PyDict), applyAnswers lookup qs = .ok out →
    out.length = qs.length ∧
    ∀ i (hi : i < qs.length) (hi' : i < out.length),
      applyAnswer lookup (qs.get ⟨i, hi⟩) = .ok (out.get ⟨i, hi'⟩) := by
  induction qs with
  | nil =>
    intro out h
    cases h
    exact ⟨rfl, fun i hi => absurd hi (by simp)⟩
  | cons q qs ih =>
    intro out h
    simp only [applyAnswers] at h
    cases hq : applyAnswer lookup q with
    | error e => rw [hq, exc_bind_err] at h; cases h
    | ok q' =>
      rw [hq, exc_bind_ok] at h
      cases hqs : applyAnswers lookup qs with
      | error e => rw [hqs, exc_bind_err] at h; cases h
      | ok out' =>
        rw [hqs, exc_bind_ok] at h
        cases h
        obtain ⟨hlen, helem⟩ := ih out' hqs
        refine ⟨by simp [hlen], ?_⟩
        intro i hi hi'
        cases i with
        | zero => simpa using hq
        | succ j =>
          simp only [List.get_cons_succ]
          exact helem j (by simpa using hi) (by simpa using hi')

/-- Case analysis of `applyAnswer` on one successfully processed question. -/
theorem applyAnswer_cases (lookup : List (JVal × JVal)) (q q' : PyDict)
    (h : applyAnswer lookup q = .ok q') :
    (assocFind lookup (normalizeQuestionId (dGet q "id")) = none → q' = q) ∧
    (∀ l, assocFind lookup (normalizeQuestionId (dGet q "id")) = some (.arr l) →
      q' = dSet (dSet q "correctAnswer" (.arr l)) "type" (.str "multiple")) ∧
    (∀ a : String,
      assocFind lookup (normalizeQuestionId (dGet q "id")) = some (.str a) →
      (isLetterAnswer a = true →
        q' = dSet q "correctAnswer" (.str ⟨pyUpper a.data⟩) ∧
        dGet q' "type" = dGet q "type") ∧
      (∀ v, isLetterAnswer a = false → parsePyFloat a = some v →
        q' = dSet (dSet q "correctAnswer"
          (.obj [("min", .flt v), ("max", .flt v)])) "type" (.str "numerical")) ∧
      (isLetterAnswer a = false → parsePyFloat a = none →
        q' = dSet q "correctAnswer" (.str a))) := by
  simp only [applyAnswer] at h
  by_cases hh : (normalizeQuestionId (dGet q "id")).hashable
  · simp only [hh, Bool.not_true] at h
    rw [if_neg (by simp)] at h
    cases hfind : assocFind lookup (normalizeQuestionId (dGet q "id")) with
    | none =>
      rw [hfind] at h
      refine ⟨fun _ => (Except.ok.inj h).symm,
        fun l hl => Option.noConfusion hl,
        fun a ha => Option.noConfusion ha⟩
    | some ans =>
      rw [hfind] at h
      refine ⟨fun hn => Option.noConfusion hn, ?_, ?_⟩
      · intro l hl
        have : ans = .arr l := Option.some.inj hl
        subst this
        exact (Except.ok.inj h).symm
      · intro a ha
        have : ans = .str a := Option.some.inj ha
        subst this
        dsimp only at h
        refine ⟨?_, ?_, ?_⟩
        · intro hlet
          rw [if_pos hlet] at h
          have hq := (Except.ok.inj h).symm
          exact ⟨hq, by
            rw [hq, dGet_dSet_other _ _ _ _ (by decide : "type" ≠ "correctAnswer")]⟩
        · intro v hlet hfl
          rw [if_neg (by simp [hlet]), hfl] at h
          exact (Except.ok.inj h).symm
        · intro hlet hfl
          rw [if_neg (by simp [hlet]), hfl] at h
          exact (Except.ok.inj h).symm
  · simp only [Bool.not_eq_true] at hh
    simp [hh] at h

/-- C4 (as amended): `_match_answer_key` compares normalized keys
(`normalize_question_id` strips a leading `Q`/`No`/`#` and one trailing
punctuation mark, but a `Question <n>` prefix is NOT stripped — the regex
alternation commits to `Q` — so such keys fall back to the raw string).
For a matched question: a single-letter answer (`A`-`E`, case-insensitive)
sets `correctAnswer` to the uppercased letter WITHOUT changing the
question's type; a list answer sets `correctAnswer` to the list and type to
`"multiple"`; a float-parseable string sets `correctAnswer` to a
`{min, max}` object with both bounds equal to the parsed value and type to
`"numerical"`; any other string is stored as-is; an unmatched question is
returned unchanged. -/
theorem C4_match_answer_key (qs : List PyDict) (ak : List JVal)
    (out : List PyDict) (lookup : List (JVal × JVal)) (i : Nat)
    (hlk : answerLookup ak = .ok lookup)
    (hok : matchAnswerKey qs ak = .ok out)
    (hi : i < qs.length) :
    normalizeQuestionId (.str "Q1") = .int 1 ∧
    normalizeQuestionId (.str "Question 1") = .str "Question 1" ∧
    out.length = qs.length ∧
    ∃ hi' : i < out.length,
      (assocFind lookup (normalizeQuestionId (dGet (qs.get ⟨i, hi⟩) "id")) = none →
        out.get ⟨i, hi'⟩ = qs.get ⟨i, hi⟩) ∧
      (∀ l, assocFind lookup (normalizeQuestionId (dGet (qs.get ⟨i, hi⟩) "id")) =
          some (.arr l) →
        out.get ⟨i, hi'⟩ =
          dSet (dSet (qs.get ⟨i, hi⟩) "correctAnswer" (.arr l)) "type" (.str "multiple")) ∧
      (∀ a : String,
        assocFind lookup (normalizeQuestionId (dGet (qs.get ⟨i, hi⟩) "id")) =
          some (.str a) →
        (isLetterAnswer a = true →
          out.get ⟨i, hi'⟩ =
            dSet (qs.get ⟨i, hi⟩) "correctAnswer" (.str ⟨pyUpper a.data⟩) ∧
          dGet (out.get ⟨i, hi'⟩) "type" = dGet (qs.get ⟨i, hi⟩) "type") ∧
        (∀ v, isLetterAnswer a = false → parsePyFloat a = some v →
          out.get ⟨i, hi'⟩ =
            dSet (dSet (qs.get ⟨i, hi⟩) "correctAnswer"
              (.obj [("min", .flt v), ("max", .flt v)])) "type" (.str "numerical")) ∧
        (isLetterAnswer a = false → parsePyFloat a = none →
          out.get ⟨i, hi'⟩ = dSet (qs.get ⟨i, hi⟩) "correctAnswer" (.str a))) := by
  simp only [matchAnswerKey] at hok
  rw [hlk, exc_bind_ok] at hok
  obtain ⟨hlen, helem⟩ := applyAnswers_spec lookup qs out hok
  have hi' : i < out.length := by omega
  exact ⟨rfl, rfl, hlen, hi',
    applyAnswer_cases lookup (qs.get ⟨i, hi⟩) (out.get ⟨i, hi'⟩) (helem i hi hi')⟩

end PdfPipeline

namespace PdfPipeline

def c4q1 : PyDict :=
  [("id", .int 1), ("type", .str "multiple"), ("correctAnswer", JVal.null)]

def c4ak1 : JVal :=
  .obj [("question_number", .int 1), ("answer", .str "b")]

def c4q2 : PyDict := [("id", .int 2), ("correctAnswer", JVal.null)]

def c4ak2 : JVal :=
  .obj [("question_number", .str "Question 2"), ("answer", .str "B")]

/-- C4 counterexample: (1) a single-letter answer `"b"` sets
`correctAnswer = "B"` but leaves the question's type `"multiple"` — it does
not make the question single-choice; (2) an answer-key entry numbered
`"Question 2"` never matches question id 2, because the normalization
regex strips only the leading `Q` (alternation order), `int("uestion 2")`
fails, the raw string is used as the key, and the question keeps
`correctAnswer = null`. -/
theorem C4_counterexample :
    (match matchAnswerKey [c4q1] [c4ak1] with
     | .ok out => out.map (fun q => (dGet q "type", dGet q "correctAnswer"))
     | .error _ => []) = [(.str "multiple", .str "B")] ∧
    JVal.str "multiple" ≠ JVal.str "single" ∧
    (match matchAnswerKey [c4q2] [c4ak2] with
     | .ok out => out.map (fun q => dGet q "correctAnswer")
     | .error _ => []) = [JVal.null] :=
  ⟨rfl, fun h => absurd (JVal.str.inj h) (by decide), rfl⟩

def c4wqs : List PyDict :=
  [[("id", .str "Q1"), ("correctAnswer", JVal.null)],
   [("id", .int 2), ("correctAnswer", JVal.null)],
   [("id", .int 3), ("correctAnswer", JVal.null)]]

def c4wak : List JVal :=
  [.obj [("question_number", .str "Q1"), ("answer", .str "b")],
   .obj [("question_number", .int 2), ("answer", .arr [.str "A", .str "C"])],
   .obj [("question_number", .int 3), ("answer", .str "3.14")]]

def c4wlookup : List (JVal × JVal) :=
  [(.int 1, .str "b"), (.int 2, .arr [.str "A", .str "C"]), (.int 3, .str "3.14")]

def c4wout : List PyDict :=
  [[("id", .str "Q1"), ("correctAnswer", .str "B")],
   [("id", .int 2), ("correctAnswer", .arr [.str "A", .str "C"]),
    ("type", .str "multiple")],
   [("id", .int 3),
    ("correctAnswer", .obj [("min", .flt ⟨314, 100, by decide⟩),
                            ("max", .flt ⟨314, 100, by decide⟩)]),
    ("type", .str "numerical")]]

/-- Witness for `C4_match_answer_key` on a concrete answer key exercising
the single-letter branch. -/
theorem C4_match_answer_key_witness :
    answerLookup c4wak = .ok c4wlookup ∧
    matchAnswerKey c4wqs c4wak = .ok c4wout ∧
    c4wout.headD [] = dSet (c4wqs.headD []) "correctAnswer" (.str ⟨pyUpper "b".data⟩) := by
  have h := C4_match_answer_key c4wqs c4wak c4wout c4wlookup 0 rfl rfl (by decide)
  obtain ⟨_, _, hlen, hi', hnone, harr, hstr⟩ := h
  have hb := (hstr "b" (by rfl)).1 (by rfl)
  exact ⟨rfl, rfl, hb.1⟩

end PdfPipeline

namespace PdfPipeline

/-! ## Frac order lemmas -/

theorem frac_ble_refl (a : Frac) : Frac.ble a a = true := by
  simp [Frac.ble]

theorem frac_ble_of_blt {a b : Frac} (h : Frac.blt a b = true) :
    Frac.ble a b = true := by
  simp only [Frac.blt, decide_eq_true_eq] at h
  simp only [Frac.ble, decide_eq_true_eq]
  omega

theorem frac_not_blt {a b : Frac} (h : Frac.blt a b = false) :
    Frac.ble b a = true := by
  simp only [Frac.blt, decide_eq_false_iff_not, not_lt] at h
  simp only [Frac.ble, decide_eq_true_eq]
  exact h

theorem frac_blt_asymm {a b : Frac} (h : Frac.blt a b = true) :
    Frac.blt b a = false := by
  simp only [Frac.blt, decide_eq_true_eq] at h
  simp only [Frac.blt, decide_eq_false_iff_not, not_lt]
  omega

theorem frac_ble_trans {a b c : Frac} (h1 : Frac.ble a b = true)
    (h2 : Frac.ble b c = true) : Frac.ble a c = true := by
  simp only [Frac.ble, decide_eq_true_eq] at h1 h2 ⊢
  have hb : (0 : Int) < b.den := Int.ofNat_pos.mpr b.dpos
  have ha : (0 : Int) < a.den := Int.ofNat_pos.mpr a.dpos
  have hc : (0 : Int) < c.den := Int.ofNat_pos.mpr c.dpos
  nlinarith

end PdfPipeline

namespace PdfPipeline

theorem aboveFold_spec (imgBbox : Rect) (l : List (Nat × DQ)) :
    ∀ acc : Option (Nat × Frac),
    (l.foldl (aboveStep imgBbox) acc = acc ∨
      ∃ j q, (j, q) ∈ l ∧ isAbove q imgBbox = true ∧
        l.foldl (aboveStep imgBbox) acc = some (j, gapOf q imgBbox)) ∧
    (∀ p ∈ l, isAbove p.2 imgBbox = true →
      ∃ jm, l.foldl (aboveStep imgBbox) acc = some jm ∧
        Frac.ble jm.2 (gapOf p.2 imgBbox) = true) ∧
    (∀ j m, acc = some (j, m) →
      ∃ j' m', l.foldl (aboveStep imgBbox) acc = some (j', m') ∧
        Frac.ble m' m = true) := by
  induction l with
  | nil =>
    intro acc
    refine ⟨Or.inl rfl, by simp, ?_⟩
    intro j m hacc
    exact ⟨j, m, by simp [hacc], frac_ble_refl m⟩
  | cons p l ih =>
    intro acc
    have hfold : (p :: l).foldl (aboveStep imgBbox) acc =
        l.foldl (aboveStep imgBbox) (aboveStep imgBbox acc p) := by
      simp [List.foldl_cons]
    obtain ⟨ih1, ih2, ih3⟩ := ih (aboveStep imgBbox acc p)
    -- characterize the single step
    have hstepcases : aboveStep imgBbox acc p = acc ∨
        (isAbove p.2 imgBbox = true ∧
          aboveStep imgBbox acc p = some (p.1, gapOf p.2 imgBbox)) := by
      simp only [aboveStep]
      by_cases hab : isAbove p.2 imgBbox
      · rw [if_pos hab]
        cases acc with
        | none => exact Or.inr ⟨hab, rfl⟩
        | some jm =>
          by_cases hlt : Frac.blt (gapOf p.2 imgBbox) jm.2
          · exact Or.inr ⟨hab, by simp [hlt]⟩
          · exact Or.inl (by simp [hlt])
      · rw [if_neg hab]
        exact Or.inl rfl
    refine ⟨?_, ?_, ?_⟩
    · rcases ih1 with h | ⟨j, q, hmem, hab, hres⟩
      · rw [hfold, h]
        rcases hstepcases with h2 | ⟨hab, h2⟩
        · exact Or.inl h2
        · exact Or.inr ⟨p.1, p.2, List.mem_cons_self _ _, hab, h2⟩
      · exact Or.inr ⟨j, q, List.mem_cons_of_mem _ hmem, hab, by rw [hfold]; exact hres⟩
    · intro x hx habx
      rcases List.mem_cons.mp hx with rfl | hx
      · -- x is the head
        rcases hstepcases with h2 | ⟨hab, h2⟩
        · -- the step did not change acc; acc carried a value at most gap x
          cases hacc : acc with
          | none =>
            rw [hacc] at h2
            simp only [aboveStep, habx, if_pos, hacc] at h2
            exact Option.noConfusion h2
          | some jm =>
            obtain ⟨j0, m0⟩ := jm
            rw [hacc] at h2
            simp only [aboveStep, habx, if_pos, hacc] at h2
            by_cases hlt : Frac.blt (gapOf x.2 imgBbox) m0
            · rw [if_pos hlt] at h2
              have hm0 : m0 = gapOf x.2 imgBbox :=
                ((Prod.mk.injEq _ _ _ _).mp (Option.some.inj h2)).2.symm
              obtain ⟨j', m', hres, hble⟩ := ih3 j0 m0
                (by rw [hacc]
                    simp only [aboveStep, habx, if_pos]
                    rw [if_pos hlt]
                    exact h2)
              exact ⟨(j', m'), by rw [← hacc, hfold]; exact hres, hm0 ▸ hble⟩
            · rw [if_neg hlt] at h2
              have hmle : Frac.ble m0 (gapOf x.2 imgBbox) = true :=
                frac_not_blt (by simpa using hlt)
              obtain ⟨j', m', hres, hble⟩ := ih3 j0 m0
                (by rw [hacc]
                    simp only [aboveStep, habx, if_pos]
                    rw [if_neg hlt])
              exact ⟨(j', m'), by rw [← hacc, hfold]; exact hres,
                frac_ble_trans hble hmle⟩
        · obtain ⟨j', m', hres, hble⟩ := ih3 x.1 (gapOf x.2 imgBbox) h2
          exact ⟨(j', m'), by rw [hfold]; exact hres, hble⟩
      · obtain ⟨jm, hres, hble⟩ := ih2 x hx habx
        exact ⟨jm, by rw [hfold]; exact hres, hble⟩
    · intro j m hacc
      rcases hstepcases with h2 | ⟨hab, h2⟩
      · obtain ⟨j', m', hres, hble⟩ := ih3 j m (by rw [h2, hacc])
        exact ⟨j', m', by rw [hfold]; exact hres, hble⟩
      · -- the step produced some (p.1, gap p): if acc already held (j, m),
        -- the replacement only happened on a strictly smaller distance
        rw [hacc] at h2
        simp only [aboveStep, hab, if_pos] at h2
        by_cases hlt : Frac.blt (gapOf p.2 imgBbox) m
        · obtain ⟨j', m', hres, hble⟩ := ih3 p.1 (gapOf p.2 imgBbox)
            (by rw [hacc]
                simp only [aboveStep, hab, if_pos]
                rw [if_pos hlt])
          exact ⟨j', m', by rw [hfold]; exact hres,
            frac_ble_trans hble (frac_ble_of_blt hlt)⟩
        · rw [if_neg hlt] at h2
          obtain ⟨j', m', hres, hble⟩ := ih3 j m
            (by rw [hacc]
                simp only [aboveStep, hab, if_pos]
                rw [if_neg hlt])
          exact ⟨j', m', by rw [hfold]; exact hres, hble⟩

end PdfPipeline

namespace PdfPipeline

/-! ## C7 — deterministic image-to-question binding -/

/-- C7: the per-image binding rule of `attach_images_to_questions`.
(1) If some unit on the page vertically contains the image centre, the
image binds to the FIRST such unit in scan order (containment wins);
(2) otherwise, if some unit's bottom edge lies at or above the image's top
edge, the image binds to a unit among those with the minimal gap;
(3) if neither rule applies, the image stays unbound. -/
theorem C7_image_binding (pageQs : List (Nat × DQ)) (imgBbox : Rect) :
    (∀ l1 j q l2, pageQs = l1 ++ (j, q) :: l2 →
      (∀ p ∈ l1, vertContains p.2 (imgCenterY imgBbox) = false) →
      vertContains q (imgCenterY imgBbox) = true →
      selectTargetIdx pageQs imgBbox = some j) ∧
    ((∀ p ∈ pageQs, vertContains p.2 (imgCenterY imgBbox) = false) →
      (∃ p ∈ pageQs, isAbove p.2 imgBbox = true) →
      ∃ j q, (j, q) ∈ pageQs ∧ selectTargetIdx pageQs imgBbox = some j ∧
        isAbove q imgBbox = true ∧
        ∀ p ∈ pageQs, isAbove p.2 imgBbox = true →
          Frac.ble (gapOf q imgBbox) (gapOf p.2 imgBbox) = true) ∧
    ((∀ p ∈ pageQs, vertContains p.2 (imgCenterY imgBbox) = false) →
      (∀ p ∈ pageQs, isAbove p.2 imgBbox = false) →
      selectTargetIdx pageQs imgBbox = none) := by
  refine ⟨?_, ?_, ?_⟩
  · -- containment wins, first match
    intro l1 j q l2 hsplit hnone hq
    subst hsplit
    have hfind : (l1 ++ (j, q) :: l2).find?
        (fun p => vertContains p.2 (imgCenterY imgBbox)) = some (j, q) := by
      induction l1 with
      | nil => simp [List.find?_cons, hq]
      | cons y l1 ih =>
        have hy : vertContains y.2 (imgCenterY imgBbox) = false :=
          hnone y (List.mem_cons_self _ _)
        simp only [List.cons_append, List.find?_cons, hy]
        exact ih (fun p hp => hnone p (List.mem_cons_of_mem _ hp))
    simp only [selectTargetIdx, hfind]
  · -- nearest above, minimal gap
    intro hnone hex
    have hfind : pageQs.find?
        (fun p => vertContains p.2 (imgCenterY imgBbox)) = none :=
      List.find?_eq_none.mpr (fun x hx => by simp [hnone x hx])
    obtain ⟨p0, hp0mem, hp0ab⟩ := hex
    obtain ⟨b1, b2, _⟩ := aboveFold_spec imgBbox pageQs none
    obtain ⟨jm, hres, _⟩ := b2 p0 hp0mem hp0ab
    rcases b1 with hcontr | ⟨j, q, hmem, hab, hres'⟩
    · rw [hcontr] at hres; cases hres
    · refine ⟨j, q, hmem, ?_, hab, ?_⟩
      · simp only [selectTargetIdx, hfind, hres', Option.map_some']
      · intro p hp hpab
        obtain ⟨jm2, hres2, hble2⟩ := b2 p hp hpab
        rw [hres'] at hres2
        have : jm2 = (j, gapOf q imgBbox) := Option.some.inj hres2.symm
        rw [this] at hble2
        exact hble2
  · -- neither rule applies
    intro hnone hnoab
    have hfind : pageQs.find?
        (fun p => vertContains p.2 (imgCenterY imgBbox)) = none :=
      List.find?_eq_none.mpr (fun x hx => by simp [hnone x hx])
    obtain ⟨b1, _, _⟩ := aboveFold_spec imgBbox pageQs none
    rcases b1 with hres | ⟨j, q, hmem, hab, _⟩
    · simp only [selectTargetIdx, hfind, hres, Option.map_none']
    · rw [hnoab (j, q) hmem] at hab
      cases hab

/-- The spec's concrete binding example: a question with bbox
`(0, 0, 100, 100)`, an image at `(10, 10, 20, 20)` and a second question at
`(0, 200, 100, 300)` on the same page. -/
def c7line1 : Line := ⟨1, ⟨0, 0, 100, 100⟩, "1. First question text", "pymupdf"⟩

def c7q1 : DQ := ⟨1, [c7line1], ⟨0, 0, 100, 100⟩, none⟩

def c7line2 : Line := ⟨1, ⟨0, 200, 100, 300⟩, "2. Second question text", "pymupdf"⟩

def c7q2 : DQ := ⟨2, [c7line2], ⟨0, 200, 100, 300⟩, none⟩

def c7img : VImg :=
  { id := "img_0_0", page_num := 1, bbox := ⟨10, 10, 20, 20⟩,
    content := [1, 2, 3], b64 := "payload", width := 10, height := 10,
    fmt := "png", itype := "diagram", source := "embedded" }

/-- Witness for `C7_image_binding`: on the spec's concrete example the
image binds to the first question (whose bbox contains its centre) and
never to the second; the full `attach_images_to_questions` pass agrees. -/
theorem C7_image_binding_witness :
    selectTargetIdx [(0, c7q1), (1, c7q2)] c7img.bbox = some 0 ∧
    (attachImagesToQuestions [c7q1, c7q2] [c7img]).1.map (fun q => q.image_id) =
      [some "IMG_0", none] := by
  constructor
  · exact (C7_image_binding [(0, c7q1), (1, c7q2)] c7img.bbox).1
      [] 0 c7q1 [(1, c7q2)] rfl (by intro p hp; cases hp) (by decide)
  · rfl

end PdfPipeline

namespace PdfPipeline

/-! ## C9 — visual-element deduplication -/

theorem map_snd_docImgsFlatFrom (doc : PdfDoc) : ∀ i,
    (docImgsFlatFrom i doc).map Prod.snd = doc.flatMap (fun p => p.imgs) := by
  induction doc with
  | nil => intro i; rfl
  | cons p ps ih =>
    intro i
    simp [docImgsFlatFrom, List.flatMap_cons, List.map_append, List.map_map, ih]

theorem map_snd_imgsWithIdx (xs : List XImg) : ∀ j,
    (imgsWithIdx j xs).map Prod.snd = xs := by
  induction xs with
  | nil => intro j; rfl
  | cons x xs ih => intro j; simp [imgsWithIdx, ih]

theorem map_thd_docImgsFlatIdxFrom (doc : PdfDoc) : ∀ i,
    (docImgsFlatIdxFrom i doc).map (fun t => t.2.2) = doc.flatMap (fun p => p.imgs) := by
  induction doc with
  | nil => intro i; rfl
  | cons p ps ih =>
    intro i
    simp only [docImgsFlatIdxFrom, List.flatMap_cons, List.map_append, List.map_map, ih]
    congr 1
    have := map_snd_imgsWithIdx p.imgs 0
    calc (imgsWithIdx 0 p.imgs).map ((fun t => t.2.2) ∘ fun jx => (i, jx.1, jx.2))
        = (imgsWithIdx 0 p.imgs).map Prod.snd := by
          apply List.map_congr_left
          intro a _
          rfl
      _ = p.imgs := this

theorem embFold_count (c : List Nat) (l : List (Nat × XImg)) :
    ∀ (out : List EmbImg) (seen : List (List Nat)),
    (((l.foldl embStep (out, seen)).1).countP (fun e => e.data = c)) =
      out.countP (fun e => e.data = c) +
      (if c ∈ seen then 0
       else
         match l.find? (fun pi => pi.2.content = c) with
         | some pi =>
           if pi.2.width < (20 : Int) ∨ pi.2.height < (20 : Int) then 0 else 1
         | none => 0) := by
  induction l with
  | nil =>
    intro out seen
    by_cases hc : c ∈ seen <;> simp [hc]
  | cons pi l ih =>
    intro out seen
    obtain ⟨i, x⟩ := pi
    simp only [List.foldl_cons]
    by_cases hseen : x.content ∈ seen
    · have hstep : embStep (out, seen) (i, x) = (out, seen) := by
        simp [embStep, hseen]
      rw [hstep, ih out seen]
      by_cases hc : c ∈ seen
      · simp [hc]
      · have hne : (x.content = c) = False := by
          simp only [eq_iff_iff, iff_false]
          intro hxc
          exact hc (hxc ▸ hseen)
        simp [List.find?_cons, hne, hc]
    · by_cases hsmall : x.width < (20 : Int) ∨ x.height < (20 : Int)
      · have hstep : embStep (out, seen) (i, x) = (out, x.content :: seen) := by
          simp [embStep, hseen, hsmall]
        rw [hstep, ih out (x.content :: seen)]
        by_cases hxc : x.content = c
        · subst hxc
          by_cases hc : x.content ∈ seen
          · exact absurd hc hseen
          · simp only [if_neg hc, List.find?_cons]
            simp [hsmall, List.mem_cons]
        · simp [List.find?_cons, List.mem_cons, hxc, Ne.symm hxc]
      · have hstep : embStep (out, seen) (i, x) =
            (out ++ [mkEmbImg i x], x.content :: seen) := by
          simp [embStep, hseen, hsmall]
        rw [hstep, ih (out ++ [mkEmbImg i x]) (x.content :: seen)]
        have hcount : (out ++ [mkEmbImg i x]).countP (fun e => e.data = c) =
            out.countP (fun e => e.data = c) + (if x.content = c then 1 else 0) := by
          simp only [List.countP_append, List.countP_cons, List.countP_nil]
          by_cases hxc : x.content = c
          · simp [mkEmbImg, hxc]
          · simp [mkEmbImg, hxc]
        rw [hcount]
        by_cases hxc : x.content = c
        · subst hxc
          by_cases hc : x.content ∈ seen
          · exact absurd hc hseen
          · simp only [if_neg hc, List.find?_cons]
            simp [hsmall, List.mem_cons]
        · simp [List.find?_cons, List.mem_cons, hxc, Ne.symm hxc]

end PdfPipeline

namespace PdfPipeline

theorem mkVImgs_count (enhance : List Nat → List Nat)
    (classify : List Nat → String → String) (p j : Nat) (x : XImg)
    (c : List Nat) :
    (mkVImgs enhance classify p j x).countP (fun v => v.content = c) =
      if x.content = c then x.rects.length else 0 := by
  unfold mkVImgs
  rw [List.countP_map]
  by_cases h : x.content = c
  · simp [h, Function.comp]
  · simp [h, Function.comp]

theorem diagramsWithIds_count (c : List Nat) (ds : List VImg) : ∀ i,
    (diagramsWithIds i ds).countP (fun d => d.content = c) =
      ds.countP (fun d => d.content = c) := by
  induction ds with
  | nil => intro i; rfl
  | cons d ds ih =>
    intro i
    simp only [diagramsWithIds, List.countP_cons, ih]

theorem allFold_count (enhance : List Nat → List Nat)
    (classify : List Nat → String → String) (c : List Nat)
    (l : List (Nat × Nat × XImg)) :
    ∀ (out : List VImg) (seen : List (List Nat)),
    (((l.foldl (allStep enhance classify) (out, seen)).1).countP
        (fun e => e.content = c)) =
      out.countP (fun e => e.content = c) +
      (if c ∈ seen then 0
       else
         match l.find? (fun t => t.2.2.content = c) with
         | some t => t.2.2.rects.length
         | none => 0) := by
  induction l with
  | nil =>
    intro out seen
    by_cases hc : c ∈ seen <;> simp [hc]
  | cons t l ih =>
    intro out seen
    obtain ⟨i, j, x⟩ := t
    simp only [List.foldl_cons]
    by_cases hseen : x.content ∈ seen
    · have hstep : allStep enhance classify (out, seen) (i, j, x) = (out, seen) := by
        simp [allStep, hseen]
      rw [hstep, ih out seen]
      by_cases hc : c ∈ seen
      · simp [hc]
      · have hne : (x.content = c) = False := by
          simp only [eq_iff_iff, iff_false]
          intro hxc
          exact hc (hxc ▸ hseen)
        simp [List.find?_cons, hne, hc]
    · have hstep : allStep enhance classify (out, seen) (i, j, x) =
          (out ++ mkVImgs enhance classify i j x, x.content :: seen) := by
        simp [allStep, hseen]
      rw [hstep, ih (out ++ mkVImgs enhance classify i j x) (x.content :: seen)]
      have hcount : (out ++ mkVImgs enhance classify i j x).countP
            (fun e => e.content = c) =
          out.countP (fun e => e.content = c) +
            (if x.content = c then x.rects.length else 0) := by
        rw [List.countP_append, mkVImgs_count]
      rw [hcount]
      by_cases hxc : x.content = c
      · subst hxc
        by_cases hc : x.content ∈ seen
        · exact absurd hc hseen
        · simp only [if_neg hc, List.find?_cons]
          simp [List.mem_cons]
      · simp [List.find?_cons, List.mem_cons, hxc, Ne.symm hxc]

theorem firstOcc_of_flat (doc : PdfDoc) (c : List Nat) :
    firstOcc doc c =
      ((docImgsFlat doc).find? (fun pi => pi.2.content = c)).map Prod.snd := by
  unfold firstOcc docImgsFlat
  rw [← map_snd_docImgsFlatFrom doc 0, List.find?_map]
  rfl

theorem firstOcc_of_flatIdx (doc : PdfDoc) (c : List Nat) :
    firstOcc doc c =
      ((docImgsFlatIdxFrom 0 doc).find? (fun t => t.2.2.content = c)).map
        (fun t => t.2.2) := by
  unfold firstOcc
  rw [← map_thd_docImgsFlatIdxFrom doc 0, List.find?_map]
  rfl

end PdfPipeline

namespace PdfPipeline

/-- **C9 (counterexample).**  One embedded image whose 30x30 content is
placed at two rectangles on page 0: `extract_all_visual_elements` emits TWO
visual elements with that byte content (one per placement rect), not the
single element the claim demands, even though `extract_embedded_images`
does emit exactly one record. -/
def c9x : XImg :=
  { content := [9, 9], ext := "png", width := 30, height := 30,
    rects := [⟨0, 0, 10, 10⟩, ⟨0, 50, 10, 60⟩] }

def c9doc : PdfDoc := [⟨[c9x]⟩]

/-- C9: counterexample.  The same byte content appears at two placements on
one page, yet the v2 extractor emits two VisualElements for it — the claim
that the extractor emits exactly one element per content hash fails for
`extract_all_visual_elements`. -/
theorem C9_counterexample :
    vimgContentCount
        (extractAllVisualElements (fun b => b) (fun _ _ => "photo") c9doc [])
        [9, 9] = 2 ∧
    (2 : Nat) ≠ 1 ∧
    embContentCount (extractEmbeddedImages c9doc) [9, 9] = 1 := by
  refine ⟨rfl, by decide, rfl⟩

/-- C9 (amended): content-hash dedup, exactly.  For every document and
byte content: `extract_embedded_images` emits exactly one record for the
content when its first occurrence survives the 20x20 size filter and none
otherwise (so never more than one, a single representative bbox);
`extract_all_visual_elements` deduplicates occurrences by content hash but
then emits ONE ELEMENT PER PLACEMENT RECT of the surviving first
occurrence (plus whatever the diagram detector contributes), so a content
placed at k rectangles yields k elements, not one. -/
theorem C9_visual_dedup (doc : PdfDoc) (c : List Nat)
    (enhance : List Nat → List Nat)
    (classify : List Nat → String → String) (diagrams : List VImg) :
    embContentCount (extractEmbeddedImages doc) c =
      (match firstOcc doc c with
       | some x => if x.width < (20 : Int) ∨ x.height < (20 : Int) then 0 else 1
       | none => 0) ∧
    vimgContentCount (extractAllVisualElements enhance classify doc diagrams) c =
      (match firstOcc doc c with
       | some x => x.rects.length
       | none => 0) + diagrams.countP (fun d => d.content = c) := by
  constructor
  · unfold embContentCount extractEmbeddedImages
    rw [embFold_count c (docImgsFlat doc) [] []]
    rw [firstOcc_of_flat]
    cases hf : (docImgsFlat doc).find? (fun pi => pi.2.content = c) with
    | none => simp
    | some pi => simp
  · unfold vimgContentCount extractAllVisualElements
    rw [List.countP_append, diagramsWithIds_count]
    rw [allFold_count enhance classify c (docImgsFlatIdxFrom 0 doc) [] []]
    rw [firstOcc_of_flatIdx]
    cases hf : (docImgsFlatIdxFrom 0 doc).find? (fun t => t.2.2.content = c) with
    | none => simp
    | some t => simp

end PdfPipeline

namespace PdfPipeline

theorem bind_eq_ok {ε α β : Type} {m : Except ε α} {k : α → Except ε β}
    {out : β} (h : (m >>= k) = Except.ok out) :
    ∃ val, m = Except.ok val ∧ k val = Except.ok out := by
  cases m with
  | ok val => exact ⟨val, rfl, by rwa [exc_bind_ok] at h⟩
  | error e =>
    rw [exc_bind_err] at h
    exact absurd h (by simp)

theorem throw_bind_ne_ok {ε α β : Type} (e : ε) (f : α → Except ε β) (b : β) :
    ((throw e : Except ε α) >>= f) ≠ Except.ok b := fun h => Except.noConfusion h

theorem runEnhanced_stats (oracleRaw : Int → Except Unit String)
    (pagesData : List (Int × PageData)) (allImages : List VImg)
    (out : EnhancedOut)
    (h : runEnhancedPipeline oracleRaw pagesData allImages = Except.ok out) :
    out.unansweredCount =
      out.questions.countP (fun q => (dGet q "needsAnswer").truthy) ∧
    out.canConfirm = decide (out.unansweredCount = 0) := by
  unfold runEnhancedPipeline at h
  obtain ⟨st, hst, h⟩ := bind_eq_ok h
  by_cases he : st.1.isEmpty
  · simp only [he, if_true, throw, throwThe, MonadExceptOf.throw, exc_bind_err] at h
    exact absurd h (by simp)
  · simp only [he, if_false, Bool.false_eq_true, exc_pure, exc_bind_ok] at h
    obtain rfl := Except.ok.inj h
    exact ⟨rfl, rfl⟩

theorem processFiles_stats (apiKeyOk : Bool)
    (docModel : List Nat → Except Unit PdfDoc)
    (renderFn : PdfDoc → List (List Nat)) (convertImg : List Nat → List Nat)
    (oracle : Nat → List (List Nat) → Except Unit String)
    (akOracle : Except Unit String) (files : List FileData)
    (answerKey : Option FileData) (out : FilesOut)
    (h : processFiles apiKeyOk docModel renderFn convertImg oracle akOracle
        files answerKey = Except.ok out) :
    out.canConfirm =
      out.questions.all (fun q => !isNullJ (dGet q "correctAnswer")) ∧
    out.unansweredCount =
      out.questions.countP (fun q => isNullJ (dGet q "correctAnswer")) := by
  unfold processFiles at h
  by_cases hk : apiKeyOk
  case neg =>
    simp only [hk, Bool.not_false, if_true, throw, throwThe,
      MonadExceptOf.throw, exc_bind_err] at h
    exact absurd h (by simp)
  case pos =>
  simp only [hk, Bool.not_true, Bool.false_eq_true, if_false] at h
  cases answerKey with
  | none =>
    simp only [exc_pure, exc_bind_ok] at h
    obtain ⟨st, -, h⟩ := bind_eq_ok h
    obtain ⟨allPages, allEmb⟩ := st
    dsimp only at h
    split at h
    · exact absurd h (throw_bind_ne_ok _ _ _)
    · split at h
      · exact absurd h (throw_bind_ne_ok _ _ _)
      · split at h
        · simp only [exc_pure, exc_bind_ok, JVal.truthy, List.isEmpty_nil,
            Bool.not_true, Bool.false_eq_true, if_false] at h
          obtain rfl := Except.ok.inj h
          exact ⟨rfl, rfl⟩
        · exact absurd h (throw_bind_ne_ok _ _ _)
  | some ak =>
    simp only [exc_pure, exc_bind_ok] at h
    obtain ⟨akv, -, h⟩ := bind_eq_ok h
    obtain ⟨st, -, h⟩ := bind_eq_ok h
    obtain ⟨allPages, allEmb⟩ := st
    dsimp only at h
    split at h
    · exact absurd h (throw_bind_ne_ok _ _ _)
    · split at h
      · exact absurd h (throw_bind_ne_ok _ _ _)
      · split at h
        · try simp only [exc_pure, exc_bind_ok] at h
          split at h
          · split at h
            · exact absurd h (throw_bind_ne_ok _ _ _)
            · split at h
              · try simp only [exc_pure, exc_bind_ok] at h
                obtain rfl := Except.ok.inj h
                exact ⟨rfl, rfl⟩
              · exact absurd h (throw_bind_ne_ok _ _ _)
          · try simp only [exc_pure, exc_bind_ok] at h
            obtain rfl := Except.ok.inj h
            exact ⟨rfl, rfl⟩
        · exact absurd h (throw_bind_ne_ok _ _ _)

end PdfPipeline

namespace PdfPipeline

/-! ## C6 — output statistics -/

/-- An oracle whose single question needs no answer but carries no
`correctAnswer`. -/
def c6oracle : Int → Except Unit String := fun _ =>
  .ok "\x7b\"questions\":[\x7b\"questionText\":\"q\",\"needsAnswer\":false\x7d]\x7d"

def c6pd : PageData := { text_blocks := [] }

/-- C6: counterexample.  In `run_enhanced_pipeline` the statistics are
computed from the `needsAnswer` flags, not from `correctAnswer`: a run
whose only question has `needsAnswer: false` and a null `correctAnswer`
returns `canConfirm = true` and `unansweredCount = 0`, although not every
question has a non-null `correctAnswer` and one question's `correctAnswer`
is null. -/
theorem C6_counterexample :
    ∃ out, runEnhancedPipeline c6oracle [(1, c6pd)] [] = Except.ok out ∧
      out.canConfirm = true ∧
      out.questions.all (fun q => !isNullJ (dGet q "correctAnswer")) = false ∧
      out.unansweredCount = 0 ∧
      out.questions.countP (fun q => isNullJ (dGet q "correctAnswer")) = 1 :=
  ⟨_, rfl, rfl, rfl, rfl, rfl⟩

end PdfPipeline

namespace PdfPipeline

/-- C6 (amended): the two entry points compute their statistics from
different fields.  Every successful `process_files` run satisfies the
claim: `canConfirm` is true iff every returned question has a non-null
`correctAnswer`, and `unansweredCount` counts the null ones.  Every
successful `run_enhanced_pipeline` run instead derives both statistics
from the `needsAnswer` flags: `unansweredCount` counts the questions whose
`needsAnswer` is truthy and `canConfirm` is true iff that count is zero —
`correctAnswer` plays no role there. -/
theorem C6_output_statistics (apiKeyOk : Bool)
    (docModel : List Nat → Except Unit PdfDoc)
    (renderFn : PdfDoc → List (List Nat)) (convertImg : List Nat → List Nat)
    (oracle : Nat → List (List Nat) → Except Unit String)
    (akOracle : Except Unit String) (files : List FileData)
    (answerKey : Option FileData) (out1 : FilesOut)
    (h1 : processFiles apiKeyOk docModel renderFn convertImg oracle akOracle
        files answerKey = Except.ok out1)
    (oracleRaw : Int → Except Unit String)
    (pagesData : List (Int × PageData)) (allImages : List VImg)
    (out2 : EnhancedOut)
    (h2 : runEnhancedPipeline oracleRaw pagesData allImages = Except.ok out2) :
    (out1.canConfirm =
        out1.questions.all (fun q => !isNullJ (dGet q "correctAnswer")) ∧
      out1.unansweredCount =
        out1.questions.countP (fun q => isNullJ (dGet q "correctAnswer"))) ∧
    (out2.unansweredCount =
        out2.questions.countP (fun q => (dGet q "needsAnswer").truthy) ∧
      out2.canConfirm = decide (out2.unansweredCount = 0)) :=
  ⟨processFiles_stats apiKeyOk docModel renderFn convertImg oracle akOracle
      files answerKey out1 h1,
    runEnhanced_stats oracleRaw pagesData allImages out2 h2⟩

/-- The oracle response parsed by the witness `process_files` run. -/
def c6resp : String :=
  "\x7b\"questions\":[\x7b\"question\":\"q\",\"id\":1\x7d]\x7d"

/-- Witness for `C6_output_statistics`: a concrete successful run of each
entry point satisfying the respective statistic equations. -/
theorem C6_output_statistics_witness :
    ∃ out1 out2,
      processFiles true (fun _ => .error ()) (fun _ => []) (fun b => b)
          (fun _ _ => .ok c6resp) (.error ()) [⟨"a.png", [1]⟩] none =
        Except.ok out1 ∧
      runEnhancedPipeline c6oracle [(1, c6pd)] [] = Except.ok out2 ∧
      ((out1.canConfirm =
          out1.questions.all (fun q => !isNullJ (dGet q "correctAnswer")) ∧
        out1.unansweredCount =
          out1.questions.countP (fun q => isNullJ (dGet q "correctAnswer"))) ∧
       (out2.unansweredCount =
          out2.questions.countP (fun q => (dGet q "needsAnswer").truthy) ∧
        out2.canConfirm = decide (out2.unansweredCount = 0))) := by
  refine ⟨_, _, rfl, rfl,
    C6_output_statistics true (fun _ => .error ()) (fun _ => []) (fun b => b)
      (fun _ _ => .ok c6resp) (.error ()) [⟨"a.png", [1]⟩] none _ rfl
      c6oracle [(1, c6pd)] [] _ rfl⟩

end PdfPipeline

namespace PdfPipeline

/-! ## C1 — non-loss of deterministic anchors -/

theorem foldl_len_inv {β σ : Type} (f : σ → β → σ) (len : σ → Nat)
    (hf : ∀ st b, len (f st b) = len st) :
    ∀ (l : List β) (st : σ), len (l.foldl f st) = len st := by
  intro l
  induction l with
  | nil => intro st; rfl
  | cons b l ih => intro st; rw [List.foldl_cons, ih, hf]

theorem attachImagesToQuestions_length (questions : List DQ)
    (images : List VImg) :
    (attachImagesToQuestions questions images).1.length = questions.length := by
  unfold attachImagesToQuestions
  refine foldl_len_inv _ (fun st : List DQ × List VImg => st.1.length) ?_ _ _
  intro st page
  obtain ⟨qs, imgs⟩ := st
  dsimp only
  by_cases hq : ((qs.enum.filter
      (fun p => match p.2.lines.head? with
        | some l => l.page_num = page
        | none => false)).map Prod.fst).isEmpty
  · simp only [hq, if_true]
  · simp only [hq, Bool.false_eq_true, if_false]
    refine foldl_len_inv _ (fun st2 : List DQ × List VImg => st2.1.length) ?_ _ _
    intro st2 ii
    obtain ⟨qs2, imgs2⟩ := st2
    obtain ⟨i, imgIdx⟩ := ii
    dsimp only
    cases hg : imgs2.get? imgIdx with
    | none => rfl
    | some img =>
      dsimp only
      split
      · split
        · simp [List.length_set]
        · rfl
      · rfl

theorem formatQuestionsForAI_length (questions : List DQ) :
    (formatQuestionsForAI questions).length = questions.length := by
  unfold formatQuestionsForAI
  exact List.length_map _ _

theorem fallbackToDeterministic_length (textBlocks : List Line)
    (images : List VImg) (pageNum : Int) :
    (fallbackToDeterministic textBlocks images pageNum).1.length =
      (detectQuestionAnchors textBlocks).length := by
  unfold fallbackToDeterministic
  dsimp only
  rw [List.length_map, formatQuestionsForAI_length,
    attachImagesToQuestions_length]

end PdfPipeline

namespace PdfPipeline

theorem postProcessQuestion_ok (m : List (String × String)) (c : Nat)
    (q : PyDict)
    (himg : dGet q "image" = JVal.null ∨ ∃ s, dGet q "image" = JVal.str s)
    (hoi : dGet q "optionImages" = JVal.obj []) :
    ∃ q', postProcessQuestion m c q = Except.ok q' := by
  unfold postProcessQuestion
  dsimp only
  rw [dGet_dSet_other q "id" "image" _ (by decide)]
  rcases himg with h | ⟨s, h⟩
  · rw [h]
    simp only [JVal.truthy, Bool.false_eq_true, if_false, exc_pure, exc_bind_ok]
    rw [dGet_dSet_other _ "image" "optionImages" _ (by decide),
      dGet_dSet_other q "id" "optionImages" _ (by decide), hoi]
    simp only [JVal.truthy, List.isEmpty_nil, Bool.not_true,
      Bool.false_eq_true, if_false, exc_pure, exc_bind_ok]
    exact ⟨_, rfl⟩
  · rw [h]
    by_cases hst : (JVal.str s).truthy = true
    · simp only [hst, if_true, JVal.hashable, Bool.not_true,
        Bool.false_eq_true, if_false]
      cases hl : lookupLast m s with
      | some b =>
        simp only [exc_pure, exc_bind_ok]
        rw [dGet_dSet_other _ "image" "optionImages" _ (by decide),
          dGet_dSet_other q "id" "optionImages" _ (by decide), hoi]
        simp only [JVal.truthy, List.isEmpty_nil, Bool.not_true,
          Bool.false_eq_true, if_false, exc_pure, exc_bind_ok]
        exact ⟨_, rfl⟩
      | none =>
        simp only [exc_pure, exc_bind_ok]
        rw [dGet_dSet_other _ "image" "optionImages" _ (by decide),
          dGet_dSet_other q "id" "optionImages" _ (by decide), hoi]
        simp only [JVal.truthy, List.isEmpty_nil, Bool.not_true,
          Bool.false_eq_true, if_false, exc_pure, exc_bind_ok]
        exact ⟨_, rfl⟩
    · simp only [hst, if_false, exc_pure, exc_bind_ok]
      rw [dGet_dSet_other _ "image" "optionImages" _ (by decide),
        dGet_dSet_other q "id" "optionImages" _ (by decide), hoi]
      simp only [JVal.truthy, List.isEmpty_nil, Bool.not_true,
        Bool.false_eq_true, if_false, exc_pure, exc_bind_ok]
      exact ⟨_, rfl⟩

end PdfPipeline

namespace PdfPipeline

theorem fallback_q_shape (tb : List Line) (imgs : List VImg) (pg : Int)
    (q : PyDict) (hq : q ∈ (fallbackToDeterministic tb imgs pg).1) :
    (dGet q "image" = JVal.null ∨ ∃ s, dGet q "image" = JVal.str s) ∧
    dGet q "optionImages" = JVal.obj [] := by
  unfold fallbackToDeterministic at hq
  dsimp only at hq
  rw [List.mem_map] at hq
  obtain ⟨fq, -, rfl⟩ := hq
  refine ⟨?_, rfl⟩
  cases hi : fq.image_id with
  | none => left; rfl
  | some s => right; exact ⟨s, rfl⟩

theorem postProcess_fold_ok (m : List (String × String)) :
    ∀ (qs : List PyDict),
    (∀ q ∈ qs,
      (dGet q "image" = JVal.null ∨ ∃ s, dGet q "image" = JVal.str s) ∧
      dGet q "optionImages" = JVal.obj []) →
    ∀ (fqs : List PyDict) (counter : Nat),
    ∃ st', (qs.foldlM
        (fun (st2 : List PyDict × Nat) q => do
          let (fq, counter) := st2
          let q' ← postProcessQuestion m counter q
          pure (fq ++ [q'], counter + 1))
        (fqs, counter)) = Except.ok st' ∧
      st'.1.length = fqs.length + qs.length := by
  intro qs
  induction qs with
  | nil =>
    intro _ fqs counter
    exact ⟨(fqs, counter), rfl, by simp⟩
  | cons q qs ih =>
    intro hqs fqs counter
    obtain ⟨h1, h2⟩ := hqs q (List.mem_cons_self q qs)
    obtain ⟨q', hok⟩ := postProcessQuestion_ok m counter q h1 h2
    obtain ⟨st', hfold, hlen⟩ :=
      ih (fun p hp => hqs p (List.mem_cons_of_mem q hp)) (fqs ++ [q'])
        (counter + 1)
    refine ⟨st', ?_, ?_⟩
    · rw [List.foldlM_cons]
      dsimp only
      rw [hok, exc_bind_ok, exc_pure, exc_bind_ok]
      exact hfold
    · rw [hlen]
      simp only [List.length_append, List.length_cons, List.length_nil]
      omega

theorem pages_fold_ok (oracleRaw : Int → Except Unit String)
    (hor : ∀ p, analyzeWithVisionAndText oracleRaw p = [])
    (allImages : List VImg) :
    ∀ (pages : List (Int × PageData)) (fqs : List PyDict) (counter : Nat),
    ∃ st', (pages.foldlM
        (fun (st : List PyDict × Nat) pp => do
          let (finalQuestions, counter) := st
          let (pageNum, pd) := pp
          let pageImages := allImages.filter (fun im => im.page_num = pageNum)
          let aiQs := analyzeWithVisionAndText oracleRaw pageNum
          let (pageQuestions, imgs') :=
            if aiQs.isEmpty then
              fallbackToDeterministic pd.text_blocks pageImages pageNum
            else (aiQs, pageImages)
          let pageImgMap := imgs'.map (fun im => (im.id, im.b64))
          let st2 ← pageQuestions.foldlM
            (fun (st2 : List PyDict × Nat) q => do
              let (fq, counter) := st2
              let q' ← postProcessQuestion pageImgMap counter q
              pure (fq ++ [q'], counter + 1))
            (finalQuestions, counter)
          pure st2)
        (fqs, counter)) = Except.ok st' ∧
      st'.1.length = fqs.length +
        (pages.map
          (fun pp => (detectQuestionAnchors pp.2.text_blocks).length)).sum := by
  intro pages
  induction pages with
  | nil =>
    intro fqs counter
    exact ⟨(fqs, counter), rfl, by simp⟩
  | cons pp pages ih =>
    intro fqs counter
    obtain ⟨pageNum, pd⟩ := pp
    rcases hfb : fallbackToDeterministic pd.text_blocks
        (allImages.filter (fun im => im.page_num = pageNum)) pageNum with
      ⟨fbq, fbi⟩
    have hshape : ∀ q ∈ fbq,
        (dGet q "image" = JVal.null ∨ ∃ s, dGet q "image" = JVal.str s) ∧
        dGet q "optionImages" = JVal.obj [] := by
      intro q hq
      exact fallback_q_shape pd.text_blocks
        (allImages.filter (fun im => im.page_num = pageNum)) pageNum q
        (by rw [hfb]; exact hq)
    obtain ⟨st2, hst2, hlen2⟩ :=
      postProcess_fold_ok (fbi.map (fun im => (im.id, im.b64))) fbq hshape
        fqs counter
    obtain ⟨st', hfold, hlen⟩ := ih st2.1 st2.2
    refine ⟨st', ?_, ?_⟩
    · rw [List.foldlM_cons]
      dsimp only
      rw [hor pageNum]
      simp only [List.isEmpty_nil, if_true]
      rw [hfb]
      dsimp only
      rw [hst2, exc_bind_ok, exc_pure, exc_bind_ok]
      exact hfold
    · rw [hlen, hlen2]
      have hfbl : fbq.length = (detectQuestionAnchors pd.text_blocks).length := by
        have := fallbackToDeterministic_length pd.text_blocks
          (allImages.filter (fun im => im.page_num = pageNum)) pageNum
        rw [hfb] at this
        exact this
      simp only [List.map_cons, List.sum_cons, hfbl]
      omega

end PdfPipeline

namespace PdfPipeline

theorem foldl_add_eq_sum {α : Type} (f : α → Nat) :
    ∀ (l : List α) (n : Nat),
    l.foldl (fun m x => m + f x) n = n + (l.map f).sum := by
  intro l
  induction l with
  | nil => intro n; simp
  | cons x l ih =>
    intro n
    rw [List.foldl_cons, ih (n + f x)]
    simp only [List.map_cons, List.sum_cons]
    omega

theorem totalAnchors_eq_sum (pagesData : List (Int × PageData)) :
    totalAnchors pagesData =
      ((sortPages pagesData).map
        (fun pp => (detectQuestionAnchors pp.2.text_blocks).length)).sum := by
  unfold totalAnchors
  rw [foldl_add_eq_sum]
  simp

end PdfPipeline

namespace PdfPipeline

/-- C1 (amended): non-loss holds only on the zero-result fallback path.
When the oracle yields zero questions for EVERY page (so the deterministic
fallback fires everywhere) and at least one anchor is detected, the run
succeeds and the output question count equals the total number of
deterministically detected anchors — the fallback loses no unit.  (The
unconditional claim is false: a page whose oracle result is non-empty but
smaller than its anchor count is taken as-is, see the counterexample.) -/
theorem C1_fallback_nonloss (oracleRaw : Int → Except Unit String)
    (pagesData : List (Int × PageData)) (allImages : List VImg)
    (hor : ∀ p, analyzeWithVisionAndText oracleRaw p = [])
    (hN : 1 ≤ totalAnchors pagesData) :
    ∃ out, runEnhancedPipeline oracleRaw pagesData allImages = Except.ok out ∧
      out.questions.length = totalAnchors pagesData := by
  obtain ⟨st', hfold, hlen⟩ :=
    pages_fold_ok oracleRaw hor allImages (sortPages pagesData) [] 1
  obtain ⟨l', c'⟩ := st'
  dsimp only at hlen
  have hta := totalAnchors_eq_sum pagesData
  have hl : l'.length = totalAnchors pagesData := by
    rw [hta]
    simpa using hlen
  have hne : l'.isEmpty = false := by
    cases l' with
    | nil => rw [← hl] at hN; simp at hN
    | cons a l => rfl
  unfold runEnhancedPipeline
  dsimp only
  rw [hfold, exc_bind_ok]
  dsimp only
  simp only [hne, Bool.false_eq_true, if_false, exc_pure, exc_bind_ok]
  exact ⟨_, rfl, hl⟩

end PdfPipeline

namespace PdfPipeline

/-- Two deterministic question anchors on one page. -/
def c1line1 : Line := ⟨1, ⟨0, 0, 100, 20⟩, "1. What is x?", "pymupdf"⟩

def c1line2 : Line := ⟨1, ⟨0, 30, 100, 50⟩, "2. What is y?", "pymupdf"⟩

def c1pd : PageData := { text_blocks := [c1line1, c1line2] }

/-- An oracle that returns a single (non-empty) question for every page. -/
def c1oracle : Int → Except Unit String := fun _ =>
  .ok "\x7b\"questions\":[\x7b\"questionText\":\"merged\"\x7d]\x7d"

/-- C1: counterexample.  A page with two deterministic anchors whose
oracle response contains one question: the non-empty AI result is taken
as-is (the fallback only fires on an EMPTY result), so the final output
has one question — strictly fewer than the deterministic candidate
count. -/
theorem C1_counterexample :
    totalAnchors [((1 : Int), c1pd)] = 2 ∧
    (∃ out, runEnhancedPipeline c1oracle [((1 : Int), c1pd)] [] =
        Except.ok out ∧
      out.questions.length = 1) ∧
    1 < totalAnchors [((1 : Int), c1pd)] :=
  ⟨rfl, ⟨_, rfl, rfl⟩, by decide⟩

/-- One deterministic anchor, used by the witness run. -/
def c1wline : Line := ⟨1, ⟨0, 0, 100, 20⟩, "1. What is x?", "pymupdf"⟩

def c1wpd : PageData := { text_blocks := [c1wline] }

/-- Witness for `C1_fallback_nonloss`: with an always-failing oracle and
one detected anchor, the run succeeds and returns exactly the fallback's
question. -/
theorem C1_fallback_nonloss_witness :
    (∀ p, analyzeWithVisionAndText (fun _ => Except.error ()) p = []) ∧
    1 ≤ totalAnchors [((1 : Int), c1wpd)] ∧
    ∃ out, runEnhancedPipeline (fun _ => Except.error ())
        [((1 : Int), c1wpd)] [] = Except.ok out ∧
      out.questions.length = totalAnchors [((1 : Int), c1wpd)] :=
  ⟨fun _ => rfl, by decide,
    C1_fallback_nonloss (fun _ => Except.error ()) [((1 : Int), c1wpd)] []
      (fun _ => rfl) (by decide)⟩

end PdfPipeline

namespace PdfPipeline

/-! ## C8 — error propagation policy -/

theorem files_fold_ok (docModel : List Nat → Except Unit PdfDoc)
    (renderFn : PdfDoc → List (List Nat)) (convertImg : List Nat → List Nat) :
    ∀ (files : List FileData),
    (∀ f ∈ files, is_pdf f.content = true →
      ∃ d, docModel f.content = Except.ok d) →
    ∀ (st : List (List Nat) × List EmbImg),
    ∃ st', (files.foldlM
        (fun (st : List (List Nat) × List EmbImg) f =>
          (do
            if is_pdf f.content then
              match docModel f.content with
              | .error _ => throw PipelineErr.docOpen
              | .ok doc =>
                pure (st.1 ++ renderFn doc, st.2 ++ extractEmbeddedImages doc)
            else if is_image f.filename then
              pure (st.1 ++ [convertImg f.content], st.2)
            else pure (st.1 ++ [f.content], st.2) :
            Except PipelineErr (List (List Nat) × List EmbImg)))
        st) = Except.ok st' := by
  intro files
  induction files with
  | nil => intro _ st; exact ⟨st, rfl⟩
  | cons f files ih =>
    intro h st
    rw [List.foldlM_cons]
    by_cases hp : is_pdf f.content = true
    · obtain ⟨d, hd⟩ := h f (List.mem_cons_self f files) hp
      simp only [hp, if_true, hd]
      obtain ⟨st', hst'⟩ :=
        ih (fun g hg => h g (List.mem_cons_of_mem f hg))
          (st.1 ++ renderFn d, st.2 ++ extractEmbeddedImages d)
      exact ⟨st', by rw [exc_pure, exc_bind_ok]; exact hst'⟩
    · simp only [hp, Bool.false_eq_true, if_false]
      by_cases hi : is_image f.filename = true
      · simp only [hi, if_true]
        obtain ⟨st', hst'⟩ :=
          ih (fun g hg => h g (List.mem_cons_of_mem f hg))
            (st.1 ++ [convertImg f.content], st.2)
        exact ⟨st', by rw [exc_pure, exc_bind_ok]; exact hst'⟩
      · simp only [hi, Bool.false_eq_true, if_false]
        obtain ⟨st', hst'⟩ :=
          ih (fun g hg => h g (List.mem_cons_of_mem f hg))
            (st.1 ++ [f.content], st.2)
        exact ⟨st', by rw [exc_pure, exc_bind_ok]; exact hst'⟩

end PdfPipeline

namespace PdfPipeline

/-- C8 (amended): with a valid API key, openable documents and no external
answer key, sub-document failures are absorbed except for the
reconciler's sort: for EVERY oracle (failing, blocked or malformed at any
batch), `process_files` either succeeds, or raises the no-pages /
zero-questions total-failure errors — or raises the merge error, which a
mixed-type id set produced by a SUCCESSFUL oracle batch triggers, so a
failure below the document level does escape to the caller. -/
theorem C8_propagation (docModel : List Nat → Except Unit PdfDoc)
    (renderFn : PdfDoc → List (List Nat)) (convertImg : List Nat → List Nat)
    (oracle : Nat → List (List Nat) → Except Unit String)
    (akOracle : Except Unit String) (files : List FileData)
    (hdoc : ∀ f ∈ files, is_pdf f.content = true →
      ∃ d, docModel f.content = Except.ok d) :
    (∃ out, processFiles true docModel renderFn convertImg oracle akOracle
        files none = Except.ok out) ∨
    processFiles true docModel renderFn convertImg oracle akOracle files
        none = Except.error PipelineErr.noPages ∨
    processFiles true docModel renderFn convertImg oracle akOracle files
        none = Except.error PipelineErr.zeroQuestions ∨
    processFiles true docModel renderFn convertImg oracle akOracle files
        none = Except.error PipelineErr.mergeError := by
  obtain ⟨st, hst⟩ := files_fold_ok docModel renderFn convertImg files hdoc ([], [])
  unfold processFiles
  simp only [Bool.not_true, Bool.false_eq_true, if_false, exc_pure, exc_bind_ok]
  simp only [exc_pure] at hst
  rw [hst, exc_bind_ok]
  split
  · right; left; rfl
  · split
    · right; right; left; rfl
    · split
      · left; exact ⟨_, rfl⟩
      · right; right; right; rfl

end PdfPipeline

namespace PdfPipeline

/-- A successful oracle batch whose two questions carry an `int` and a
`str` id. -/
def c8resp : String :=
  "\x7b\"questions\":[\x7b\"question\":\"a\",\"id\":1\x7d,\x7b\"question\":\"b\",\"id\":\"abc\"\x7d]\x7d"

/-- C8: counterexample.  The oracle call and the response parse BOTH
succeed (a sub-document step), yet the run fails: the reconciler's
`sorted(..., key=...)` compares the int id 1 with the str id "abc",
raises `TypeError`, and `process_files` propagates it to the caller —
a failure below the document level that is neither a document-open nor a
zero-questions error. -/
theorem C8_counterexample :
    ∃ pr, parseResponse c8resp [] = Except.ok pr ∧
      pr.questions.length = 2 ∧
      mergeCrossPageQuestions pr.questions = Except.error () ∧
      processFiles true (fun _ => .error ()) (fun _ => []) (fun b => b)
          (fun _ _ => .ok c8resp) (.error ()) [⟨"b.png", [2]⟩] none =
        Except.error PipelineErr.mergeError :=
  ⟨_, rfl, rfl, rfl, rfl⟩

/-- Witness for `C8_propagation`: a concrete run (failing oracle, one
non-PDF file) lands in one of the four allowed outcomes. -/
theorem C8_propagation_witness :
    (∃ out, processFiles true (fun _ => Except.error ()) (fun _ => [])
        (fun b => b) (fun _ _ => Except.error ()) (Except.error ())
        [⟨"b.png", [2]⟩] none = Except.ok out) ∨
    processFiles true (fun _ => Except.error ()) (fun _ => []) (fun b => b)
        (fun _ _ => Except.error ()) (Except.error ()) [⟨"b.png", [2]⟩]
        none = Except.error PipelineErr.noPages ∨
    processFiles true (fun _ => Except.error ()) (fun _ => []) (fun b => b)
        (fun _ _ => Except.error ()) (Except.error ()) [⟨"b.png", [2]⟩]
        none = Except.error PipelineErr.zeroQuestions ∨
    processFiles true (fun _ => Except.error ()) (fun _ => []) (fun b => b)
        (fun _ _ => Except.error ()) (Except.error ()) [⟨"b.png", [2]⟩]
        none = Except.error PipelineErr.mergeError :=
  C8_propagation (fun _ => Except.error ()) (fun _ => []) (fun b => b)
    (fun _ _ => Except.error ()) (Except.error ()) [⟨"b.png", [2]⟩]
    (fun f hf hp => by
      rw [List.mem_singleton] at hf
      subst hf
      exact absurd hp (by decide))

end PdfPipeline

namespace PdfPipeline

/-! ## C5 — reconciler idempotence -/

theorem strLt_asymm (s : List Char) : ∀ t,
    strLtChars s t = true → strLtChars t s = false := by
  induction s with
  | nil =>
    intro t h
    cases t with
    | nil => exact absurd h (by simp [strLtChars])
    | cons b bs => rfl
  | cons a as ih =>
    intro t h
    cases t with
    | nil => exact absurd h (by simp [strLtChars])
    | cons b bs =>
      simp only [strLtChars] at h ⊢
      by_cases h1 : a.toNat < b.toNat
      · rw [if_neg (by omega), if_pos h1]
      · by_cases h2 : b.toNat < a.toNat
        · rw [if_neg h1, if_pos h2] at h
          exact absurd h (by simp)
        · rw [if_neg h2, if_neg h1]
          rw [if_neg h1, if_neg h2] at h
          exact ih bs h

theorem frac_beq_symm (x y : Frac) : Frac.beq x y = Frac.beq y x := by
  simp only [Frac.beq]
  by_cases h : x.num * (y.den : Int) = y.num * (x.den : Int)
  · rw [decide_eq_true h, decide_eq_true h.symm]
  · rw [decide_eq_false h, decide_eq_false (fun he => h he.symm)]

theorem scalarEq_symm (a b : JVal) : JVal.scalarEq a b = JVal.scalarEq b a := by
  unfold JVal.scalarEq
  cases hna : a.toNum with
  | some x =>
    cases hnb : b.toNum with
    | some y => exact frac_beq_symm x y
    | none =>
      cases a <;> cases b <;> simp_all [JVal.toNum]
  | none =>
    cases hnb : b.toNum with
    | some y =>
      cases a <;> cases b <;> simp_all [JVal.toNum]
    | none =>
      cases a <;> cases b <;> simp_all [JVal.toNum] <;> exact eq_comm

theorem pyLt_asymm : ∀ a b : JVal, pyLt a b = .ok true → pyLt b a = .ok false := by
  intro a b h
  cases a <;> cases b <;>
    first
    | exact Except.noConfusion h
    | exact congrArg Except.ok (frac_blt_asymm (Except.ok.inj h))
    | exact congrArg Except.ok (strLt_asymm _ _ (Except.ok.inj h))

end PdfPipeline

namespace PdfPipeline

theorem insertSortedE_perm (keyf : PyDict → JVal) (x : PyDict) :
    ∀ (ys r : List PyDict), insertSortedE keyf x ys = .ok r →
    r.Perm (x :: ys) := by
  intro ys
  induction ys with
  | nil =>
    intro r h
    obtain rfl := Except.ok.inj h
    exact List.Perm.refl _
  | cons y ys ih =>
    intro r h
    unfold insertSortedE at h
    cases hb : pyLt (keyf y) (keyf x) with
    | error e =>
      rw [hb, exc_bind_err] at h
      exact absurd h (by simp)
    | ok b =>
      rw [hb, exc_bind_ok] at h
      cases b with
      | false =>
        rw [if_neg Bool.false_ne_true] at h
        obtain rfl := Except.ok.inj h
        exact List.Perm.refl _
      | true =>
        rw [if_pos rfl] at h
        obtain ⟨r', hr', h2⟩ := bind_eq_ok h
        obtain rfl := Except.ok.inj h2
        exact (List.Perm.cons y (ih r' hr')).trans (List.Perm.swap x y ys)

theorem insertSortedE_chain (keyf : PyDict → JVal) (x : PyDict) :
    ∀ (ys : List PyDict),
    List.Chain' (fun a b => pyLt (keyf b) (keyf a) = Except.ok false) ys →
    ∀ r, insertSortedE keyf x ys = .ok r →
    List.Chain' (fun a b => pyLt (keyf b) (keyf a) = Except.ok false) r ∧
      (r.head? = some x ∨ r.head? = ys.head?) := by
  intro ys
  induction ys with
  | nil =>
    intro _ r h
    obtain rfl := Except.ok.inj h
    exact ⟨List.chain'_singleton x, Or.inl rfl⟩
  | cons y ys ih =>
    intro hch r h
    unfold insertSortedE at h
    cases hb : pyLt (keyf y) (keyf x) with
    | error e =>
      rw [hb, exc_bind_err] at h
      exact absurd h (by simp)
    | ok b =>
      rw [hb, exc_bind_ok] at h
      cases b with
      | false =>
        rw [if_neg Bool.false_ne_true] at h
        obtain rfl := Except.ok.inj h
        exact ⟨List.chain'_cons.mpr ⟨hb, hch⟩, Or.inl rfl⟩
      | true =>
        rw [if_pos rfl] at h
        obtain ⟨r', hr', h2⟩ := bind_eq_ok h
        obtain rfl := Except.ok.inj h2
        obtain ⟨hch', hd⟩ := ih (List.chain'_cons'.mp hch).2 r' hr'
        refine ⟨List.chain'_cons'.mpr ⟨?_, hch'⟩, Or.inr rfl⟩
        intro z hz
        rcases hd with hd | hd
        · rw [hd] at hz
          obtain rfl := Option.some.inj hz
          exact pyLt_asymm _ _ hb
        · rw [hd] at hz
          exact (List.chain'_cons'.mp hch).1 z hz

theorem sortByKeyE_perm (keyf : PyDict → JVal) :
    ∀ (l s : List PyDict), sortByKeyE keyf l = .ok s → s.Perm l := by
  intro l
  induction l with
  | nil =>
    intro s h
    obtain rfl := Except.ok.inj h
    exact List.Perm.refl _
  | cons x xs ih =>
    intro s h
    unfold sortByKeyE at h
    obtain ⟨s', hs', h2⟩ := bind_eq_ok h
    exact (insertSortedE_perm keyf x s' s h2).trans ((ih s' hs').cons x)

theorem sortByKeyE_chain (keyf : PyDict → JVal) :
    ∀ (l s : List PyDict), sortByKeyE keyf l = .ok s →
    List.Chain' (fun a b => pyLt (keyf b) (keyf a) = Except.ok false) s := by
  intro l
  induction l with
  | nil =>
    intro s h
    obtain rfl := Except.ok.inj h
    exact List.chain'_nil
  | cons x xs ih =>
    intro s h
    unfold sortByKeyE at h
    obtain ⟨s', hs', h2⟩ := bind_eq_ok h
    exact (insertSortedE_chain keyf x s' (ih s' hs') s h2).1

theorem sorted_resort (keyf : PyDict → JVal) :
    ∀ (l : List PyDict),
    List.Chain' (fun a b => pyLt (keyf b) (keyf a) = Except.ok false) l →
    sortByKeyE keyf l = .ok l := by
  intro l
  induction l with
  | nil => intro _; rfl
  | cons x xs ih =>
    intro hch
    unfold sortByKeyE
    rw [ih (List.chain'_cons'.mp hch).2, exc_bind_ok]
    cases xs with
    | nil => rfl
    | cons y ys =>
      have hxy := (List.chain'_cons'.mp hch).1 y rfl
      unfold insertSortedE
      rw [hxy, exc_bind_ok, if_neg Bool.false_ne_true]
      rfl

end PdfPipeline

namespace PdfPipeline

/-- Invariant of the grouping dict of `merge_cross_page_questions`: every
group's key is hashable and is the normalized id of its first member, and
the keys are pairwise `==`-distinct. -/
def GProps (gs : QGroups) : Prop :=
  (∀ g ∈ gs, g.1.hashable = true ∧
    g.1 = normalizeQuestionId (dGet g.2.1 "id")) ∧
  (gs.map (fun g => g.1)).Pairwise (fun a b => JVal.scalarEq a b = false)

theorem mem_insertGroup : ∀ (gs : QGroups) (key : JVal) (q : PyDict)
    (g : JVal × PyDict × List PyDict), g ∈ insertGroup gs key q →
    (∃ g0 ∈ gs, g.1 = g0.1 ∧ g.2.1 = g0.2.1) ∨ (g.1 = key ∧ g.2.1 = q) := by
  intro gs key q
  induction gs with
  | nil =>
    intro g hg
    unfold insertGroup at hg
    obtain rfl := List.mem_singleton.mp hg
    exact Or.inr ⟨rfl, rfl⟩
  | cons hd gs ih =>
    intro g hg
    obtain ⟨k, p, rest⟩ := hd
    unfold insertGroup at hg
    by_cases hks : JVal.scalarEq k key = true
    · rw [if_pos hks] at hg
      rcases List.mem_cons.mp hg with rfl | hg
      · exact Or.inl ⟨(k, p, rest), List.mem_cons_self _ _, rfl, rfl⟩
      · exact Or.inl ⟨g, List.mem_cons_of_mem _ hg, rfl, rfl⟩
    · rw [if_neg hks] at hg
      rcases List.mem_cons.mp hg with rfl | hg
      · exact Or.inl ⟨(k, p, rest), List.mem_cons_self _ _, rfl, rfl⟩
      · rcases ih g hg with ⟨g0, hg0, h1, h2⟩ | hkey
        · exact Or.inl ⟨g0, List.mem_cons_of_mem _ hg0, h1, h2⟩
        · exact Or.inr hkey

theorem insertGroup_props (key : JVal) (q : PyDict)
    (hk : key.hashable = true)
    (hq : key = normalizeQuestionId (dGet q "id")) :
    ∀ gs : QGroups, GProps gs → GProps (insertGroup gs key q) := by
  intro gs
  induction gs with
  | nil =>
    intro _
    refine ⟨?_, ?_⟩
    · intro g hg
      unfold insertGroup at hg
      obtain rfl := List.mem_singleton.mp hg
      exact ⟨hk, hq⟩
    · unfold insertGroup
      simp
  | cons hd gs ih =>
    intro hp
    obtain ⟨k, p, rest⟩ := hd
    obtain ⟨helem, hpair⟩ := hp
    unfold insertGroup
    by_cases hks : JVal.scalarEq k key = true
    · rw [if_pos hks]
      refine ⟨?_, ?_⟩
      · intro g hg
        rcases List.mem_cons.mp hg with rfl | hg
        · exact helem (k, p, rest) (List.mem_cons_self _ _)
        · exact helem g (List.mem_cons_of_mem _ hg)
      · exact hpair
    · rw [if_neg hks]
      obtain ⟨helem', hpair'⟩ :=
        ih ⟨fun g hg => helem g (List.mem_cons_of_mem _ hg),
          (List.pairwise_cons.mp hpair).2⟩
      refine ⟨?_, ?_⟩
      · intro g hg
        rcases List.mem_cons.mp hg with rfl | hg
        · exact helem (k, p, rest) (List.mem_cons_self _ _)
        · exact helem' g hg
      · rw [List.map_cons]
        refine List.pairwise_cons.mpr ⟨?_, hpair'⟩
        intro b hb
        rw [List.mem_map] at hb
        obtain ⟨g, hg, rfl⟩ := hb
        rcases mem_insertGroup gs key q g hg with ⟨g0, hg0, h1, -⟩ | ⟨h1, -⟩
        · rw [h1]
          exact (List.pairwise_cons.mp hpair).1 g0.1
            (List.mem_map.mpr ⟨g0, hg0, rfl⟩)
        · rw [h1]
          cases hsc : JVal.scalarEq k key with
          | true => exact absurd hsc hks
          | false => rfl

theorem group_fold_props : ∀ (qs : List PyDict) (gs0 : QGroups), GProps gs0 →
    ∀ gs, ((qs.foldlM
      (fun gs q =>
        let key := normalizeQuestionId (dGet q "id")
        if key.hashable then pure (insertGroup gs key q) else throw ())
      gs0 : Except Unit QGroups)) = .ok gs → GProps gs := by
  intro qs
  induction qs with
  | nil =>
    intro gs0 h0 gs h
    obtain rfl := Except.ok.inj h
    exact h0
  | cons q qs ih =>
    intro gs0 h0 gs h
    rw [List.foldlM_cons] at h
    dsimp only at h
    by_cases hk : (normalizeQuestionId (dGet q "id")).hashable = true
    · rw [if_pos hk] at h
      simp only [exc_pure, exc_bind_ok] at h
      exact ih (insertGroup gs0 (normalizeQuestionId (dGet q "id")) q)
        (insertGroup_props _ q hk rfl gs0 h0) gs h
    · rw [if_neg hk] at h
      exact absurd h (throw_bind_ne_ok _ _ _)

theorem groupByNormalizedId_props (qs : List PyDict) (gs : QGroups)
    (h : groupByNormalizedId qs = .ok gs) : GProps gs :=
  group_fold_props qs [] ⟨fun g hg => absurd hg (by simp), by simp⟩ gs h

end PdfPipeline

namespace PdfPipeline

theorem mergeStep_id (st : MergeSt) (part : PyDict) (st1 : MergeSt)
    (h : mergeStep st part = .ok st1) :
    dGet st1.2.2.2 "id" = dGet st.2.2.2 "id" := by
  obtain ⟨texts, opts, dpages, merged⟩ := st
  unfold mergeStep at h
  dsimp only at h
  obtain ⟨t1, ht1, h⟩ := bind_eq_ok h
  obtain ⟨o1, ho1, h⟩ := bind_eq_ok h
  obtain rfl := Except.ok.inj h
  exact updateMerged_other merged part "id" (by decide) (by decide)

theorem mergeFold_id : ∀ (parts : List PyDict) (st st' : MergeSt),
    parts.foldlM mergeStep st = .ok st' →
    dGet st'.2.2.2 "id" = dGet st.2.2.2 "id" := by
  intro parts
  induction parts with
  | nil =>
    intro st st' h
    obtain rfl := Except.ok.inj h
    rfl
  | cons part parts ih =>
    intro st st' h
    rw [List.foldlM_cons] at h
    obtain ⟨st1, hst1, h⟩ := bind_eq_ok h
    rw [ih st1 st' h, mergeStep_id st part st1 hst1]

theorem mergeQuestionParts_id (p : PyDict) (rest : List PyDict) (m : PyDict)
    (h : mergeQuestionParts p rest = .ok m) :
    dGet m "id" = dGet p "id" := by
  unfold mergeQuestionParts at h
  obtain ⟨st, hst, h⟩ := bind_eq_ok h
  obtain ⟨texts, opts, dpages, merged⟩ := st
  have hmid : dGet merged "id" = dGet p "id" :=
    mergeFold_id (p :: rest) ([], [], [], p) (texts, opts, dpages, merged) hst
  dsimp only at h
  have hid1 : ∀ d : PyDict,
      dGet (dSet d "question"
        (.str (String.intercalate " <br><br> " (textsDedup texts)))) "id" =
      dGet d "id" := fun d => dGet_dSet_other d _ _ _ (by decide)
  by_cases hoe : (!opts.isEmpty) = true
  · simp only [hoe, if_true] at h
    cases dpages with
    | nil =>
      simp only [exc_pure, exc_bind_ok] at h
      obtain rfl := Except.ok.inj h
      rw [dGet_dSet_other _ _ _ _ (by decide : "id" ≠ "crossPage"),
        dGet_dSet_other _ _ _ _ (by decide : "id" ≠ "optionImages"),
        dGet_dSet_other _ _ _ _ (by decide : "id" ≠ "options"), hid1, hmid]
    | cons d ds =>
      dsimp only at h
      cases hmin : pyMinJ d ds with
      | error e =>
        rw [hmin] at h
        exact absurd h (fun hh => Except.noConfusion hh)
      | ok mv =>
        rw [hmin] at h
        simp only [exc_pure, exc_bind_ok] at h
        obtain rfl := Except.ok.inj h
        rw [dGet_dSet_other _ _ _ _ (by decide : "id" ≠ "crossPage"),
          dGet_dSet_other _ _ _ _ (by decide : "id" ≠ "diagramPage"),
          dGet_dSet_other _ _ _ _ (by decide : "id" ≠ "optionImages"),
          dGet_dSet_other _ _ _ _ (by decide : "id" ≠ "options"), hid1, hmid]
  · simp only [hoe, Bool.false_eq_true, if_false] at h
    cases dpages with
    | nil =>
      simp only [exc_pure, exc_bind_ok] at h
      obtain rfl := Except.ok.inj h
      rw [dGet_dSet_other _ _ _ _ (by decide : "id" ≠ "crossPage"), hid1, hmid]
    | cons d ds =>
      dsimp only at h
      cases hmin : pyMinJ d ds with
      | error e =>
        rw [hmin] at h
        exact absurd h (fun hh => Except.noConfusion hh)
      | ok mv =>
        rw [hmin] at h
        simp only [exc_pure, exc_bind_ok] at h
        obtain rfl := Except.ok.inj h
        rw [dGet_dSet_other _ _ _ _ (by decide : "id" ≠ "crossPage"),
          dGet_dSet_other _ _ _ _ (by decide : "id" ≠ "diagramPage"),
          hid1, hmid]

end PdfPipeline

namespace PdfPipeline

theorem mapM_ok_forall2 {α β : Type} (f : α → Except Unit β) :
    ∀ (l : List α) (r : List β), l.mapM f = .ok r →
    List.Forall₂ (fun a b => f a = .ok b) l r := by
  intro l
  induction l with
  | nil =>
    intro r h
    obtain rfl := Except.ok.inj h
    exact List.Forall₂.nil
  | cons x xs ih =>
    intro r h
    rw [List.mapM_cons] at h
    obtain ⟨y, hy, h⟩ := bind_eq_ok h
    obtain ⟨ys, hys, h⟩ := bind_eq_ok h
    obtain rfl := Except.ok.inj h
    exact List.Forall₂.cons hy (ih ys hys)

theorem mergeFn_key (g : JVal × PyDict × List PyDict) (m : PyDict)
    (h : (match g with
      | (_, p, []) => pure p
      | (_, p, r :: rs) => mergeQuestionParts p (r :: rs)) = Except.ok m)
    (hg : g.1 = normalizeQuestionId (dGet g.2.1 "id")) :
    normalizeQuestionId (dGet m "id") = g.1 := by
  obtain ⟨k, p, rest⟩ := g
  cases rest with
  | nil =>
    obtain rfl := Except.ok.inj h
    exact hg.symm
  | cons r rs =>
    rw [mergeQuestionParts_id p (r :: rs) m h]
    exact hg.symm

theorem forall2_keys (gs : QGroups) (ms : List PyDict)
    (h : List.Forall₂ (fun g m =>
      (match g with
        | (_, p, ([] : List PyDict)) => pure p
        | (_, p, r :: rs) => mergeQuestionParts p (r :: rs)) = Except.ok m)
      gs ms)
    (hk : ∀ g ∈ gs, g.1 = normalizeQuestionId (dGet g.2.1 "id")) :
    ms.map (fun m => normalizeQuestionId (dGet m "id")) =
      gs.map (fun g => g.1) := by
  induction h with
  | nil => rfl
  | cons hab htail ih =>
    rename_i g m gs' ms'
    rw [List.map_cons, List.map_cons,
      mergeFn_key g m hab (hk g (List.mem_cons_self _ _)),
      ih (fun g' hg' => hk g' (List.mem_cons_of_mem _ hg'))]

theorem insertGroup_append (key : JVal) (q : PyDict) :
    ∀ gs : QGroups, (∀ g ∈ gs, JVal.scalarEq g.1 key = false) →
    insertGroup gs key q = gs ++ [(key, q, [])] := by
  intro gs
  induction gs with
  | nil => intro _; rfl
  | cons hd gs ih =>
    intro h
    obtain ⟨k, p, rest⟩ := hd
    unfold insertGroup
    have hk : JVal.scalarEq k key = false :=
      h (k, p, rest) (List.mem_cons_self _ _)
    rw [hk]
    simp only [Bool.false_eq_true, if_false, List.cons_append]
    rw [ih (fun g hg => h g (List.mem_cons_of_mem _ hg))]

theorem group_singletons : ∀ (l : List PyDict) (gs0 : QGroups),
    (∀ q ∈ l, (normalizeQuestionId (dGet q "id")).hashable = true) →
    (∀ q ∈ l, ∀ g ∈ gs0,
      JVal.scalarEq g.1 (normalizeQuestionId (dGet q "id")) = false) →
    l.Pairwise (fun a b =>
      JVal.scalarEq (normalizeQuestionId (dGet a "id"))
        (normalizeQuestionId (dGet b "id")) = false) →
    ((l.foldlM
      (fun gs q =>
        let key := normalizeQuestionId (dGet q "id")
        if key.hashable then pure (insertGroup gs key q) else throw ())
      gs0 : Except Unit QGroups)) =
      .ok (gs0 ++ l.map
        (fun q => (normalizeQuestionId (dGet q "id"), q, []))) := by
  intro l
  induction l with
  | nil => intro gs0 _ _ _; simp only [List.map_nil, List.append_nil]; rfl
  | cons q l ih =>
    intro gs0 hh h0 hp
    rw [List.foldlM_cons]
    dsimp only
    rw [if_pos (hh q (List.mem_cons_self _ _)), exc_pure, exc_bind_ok]
    rw [insertGroup_append _ q gs0
      (fun g hg => h0 q (List.mem_cons_self _ _) g hg)]
    rw [ih (gs0 ++ [(normalizeQuestionId (dGet q "id"), q, [])])
      (fun p hp' => hh p (List.mem_cons_of_mem _ hp'))
      ?_ (List.pairwise_cons.mp hp).2]
    · simp
    · intro p hp' g hg
      rcases List.mem_append.mp hg with hg | hg
      · exact h0 p (List.mem_cons_of_mem _ hp') g hg
      · obtain rfl := List.mem_singleton.mp hg
        exact (List.pairwise_cons.mp hp).1 p hp'

end PdfPipeline

namespace PdfPipeline

theorem mapM_singletons : ∀ (l : List PyDict),
    ((l.map (fun q =>
        (normalizeQuestionId (dGet q "id"), q, ([] : List PyDict)))).mapM
      (fun g =>
        match g with
        | (_, p, []) => pure p
        | (_, p, r :: rs) => mergeQuestionParts p (r :: rs)) :
      Except Unit (List PyDict)) = .ok l := by
  intro l
  induction l with
  | nil => rfl
  | cons q l ih =>
    rw [List.map_cons, List.mapM_cons]
    dsimp only
    rw [ih]
    rfl

/-- C5: the Cross-Batch Reconciler is idempotent.  A successful
`merge_cross_page_questions` run produces a list whose normalized ids are
pairwise distinct hashable keys and whose key order is sorted; running the
reconciler on its own output re-groups every question into a singleton
group, passes it through unmerged, and re-sorts a sorted list, returning
the output unchanged. -/
theorem C5_reconciler_idempotent (qs out : List PyDict)
    (h : mergeCrossPageQuestions qs = .ok out) :
    mergeCrossPageQuestions out = .ok out := by
  unfold mergeCrossPageQuestions at h
  obtain ⟨gs, hgs, h⟩ := bind_eq_ok h
  obtain ⟨ms, hms, hsort⟩ := bind_eq_ok h
  obtain ⟨hrep, hpair⟩ := groupByNormalizedId_props qs gs hgs
  have hf2 := mapM_ok_forall2 _ gs ms hms
  have hkeys := forall2_keys gs ms hf2 (fun g hg => (hrep g hg).2)
  have hperm : out.Perm ms := sortByKeyE_perm mergeSortKey ms out hsort
  have hchain := sortByKeyE_chain mergeSortKey ms out hsort
  have hhash : ∀ q ∈ out,
      (normalizeQuestionId (dGet q "id")).hashable = true := by
    intro q hq
    have hq' : q ∈ ms := hperm.mem_iff.mp hq
    have hmem : normalizeQuestionId (dGet q "id") ∈
        ms.map (fun m => normalizeQuestionId (dGet m "id")) :=
      List.mem_map_of_mem _ hq'
    rw [hkeys, List.mem_map] at hmem
    obtain ⟨g, hg, hkey⟩ := hmem
    rw [← hkey]
    exact (hrep g hg).1
  have hpair_ms : ms.Pairwise (fun a b =>
      JVal.scalarEq (normalizeQuestionId (dGet a "id"))
        (normalizeQuestionId (dGet b "id")) = false) := by
    have hp2 := hpair
    rw [← hkeys] at hp2
    exact List.pairwise_map.mp hp2
  have hsymm : Symmetric (fun a b : PyDict =>
      JVal.scalarEq (normalizeQuestionId (dGet a "id"))
        (normalizeQuestionId (dGet b "id")) = false) := by
    intro a b hab
    rw [scalarEq_symm]
    exact hab
  have hpair_out := (hperm.pairwise_iff (fun hab => hsymm hab)).mpr hpair_ms
  have hg2 : groupByNormalizedId out =
      .ok (out.map (fun q =>
        (normalizeQuestionId (dGet q "id"), q, ([] : List PyDict)))) := by
    unfold groupByNormalizedId
    rw [group_singletons out [] hhash
      (fun q _ g hg => absurd hg (List.not_mem_nil g)) hpair_out]
    rw [List.nil_append]
  unfold mergeCrossPageQuestions
  rw [hg2, exc_bind_ok, mapM_singletons out, exc_bind_ok]
  exact sorted_resort mergeSortKey out hchain

end PdfPipeline

namespace PdfPipeline

/-- Three question fragments: ids 2, 1, 2 (one cross-page merge, one sort
inversion). -/
def c5qs : List PyDict :=
  [[("id", .int 2), ("question", .str "part one")],
   [("id", .int 1), ("question", .str "first")],
   [("id", .int 2), ("question", .str "part two")]]

/-- Witness for `C5_reconciler_idempotent`: a concrete successful run
(with both a real merge and a sort inversion) whose output the reconciler
maps to itself. -/
theorem C5_reconciler_idempotent_witness :
    ∃ out, mergeCrossPageQuestions c5qs = .ok out ∧
      mergeCrossPageQuestions out = .ok out :=
  ⟨_, rfl, C5_reconciler_idempotent c5qs _ rfl⟩

end PdfPipeline
